import Mathlib

/-!
Verification development for the Storcky income-statement Sankey flow-graph
compiler (`apps/web/lib/income-sankey.ts`).

The TypeScript module is shallowly embedded below.  JavaScript numbers occur
in two roles and are modelled accordingly:

* fact values, pool entries and flows: `JSNum`, an integer or the `NaN`
  sentinel.  The compiler's only value arithmetic is `+`, unary `-`, `min`
  and `Math.abs`, all of which preserve integrality, so restricting the value
  domain to integers loses nothing any claim depends on.  `undefined` read
  out of a value map is conflated with `NaN`, which is sound here because the
  compiler only ever combines such reads with arithmetic, truthiness tests
  (`|| 0`) and comparisons, on all of which `undefined` coerces to `NaN` and
  behaves identically;
* `order` fields, which are only ever compared (the `sort` comparators):
  `JSDec`, an exact decimal `mantissa / 10 ^ shift`, so the template's
  fractional literals such as `5.3` are represented exactly.

Destructive mutation of the working value pools is modelled by explicit state
passing (`ApportionState`).  String rendering of numbers (`Intl.NumberFormat`,
template literals) is abstracted by `toString`; no property below depends on
the rendered text.
-/

namespace Storcky

/-- A JavaScript number restricted to the compiler's reachable values: an
integer, or the not-a-number sentinel (also standing for `undefined` map
reads, see module comment). -/
inductive JSNum where
  | nan : JSNum
  | num (z : ℤ) : JSNum
deriving DecidableEq, Repr

/-- JS `+` on numbers: `NaN` propagates. -/
def jAdd : JSNum → JSNum → JSNum
  | .num a, .num b => .num (a + b)
  | _, _ => .nan

/-- JS unary `-` on numbers. -/
def jNeg : JSNum → JSNum
  | .num a => .num (-a)
  | .nan => .nan

/-- JS `x - q` where `q` is a known-finite number. -/
def jSubI : JSNum → ℤ → JSNum
  | .num a, q => .num (a - q)
  | .nan, _ => .nan

/-- JS `x + q` where `q` is a known-finite number. -/
def jAddI : JSNum → ℤ → JSNum
  | .num a, q => .num (a + q)
  | .nan, _ => .nan

/-- JS truthiness of a number: `0` and `NaN` are falsy. -/
def jTruthy : JSNum → Bool
  | .num q => decide (q ≠ 0)
  | .nan => false

/-- JS `x || 0` on numbers. -/
def orZero (x : JSNum) : JSNum :=
  if jTruthy x then x else .num 0

/-- The number denoted by `x || 0`. -/
def finNum : JSNum → ℤ
  | .num q => q
  | .nan => 0

/-- A JavaScript numeric literal in an `order` field, kept exact: the value
`mantissa / 10 ^ shift` (so `5.3` is `.dec 53 1`, and integers have
`shift = 0`).  Order fields are only ever compared, never computed with. -/
structure JSDec where
  mantissa : ℤ
  shift : ℕ
deriving DecidableEq, Repr

/-- Decimal literal constructor: `JSDec.dec 53 1` is `5.3`. -/
def JSDec.dec (mantissa : ℤ) (shift : ℕ) : JSDec := ⟨mantissa, shift⟩

instance (n : ℕ) : OfNat JSDec n := ⟨⟨n, 0⟩⟩

/-- Numeric comparison of two exact decimals (cross-multiplied). -/
def JSDec.le (a b : JSDec) : Prop :=
  a.mantissa * 10 ^ b.shift ≤ b.mantissa * 10 ^ a.shift

instance : DecidableRel JSDec.le :=
  fun a b => inferInstanceAs (Decidable (a.mantissa * 10 ^ b.shift ≤ b.mantissa * 10 ^ a.shift))

instance : IsTotal JSDec JSDec.le :=
  ⟨fun a b => le_total (a.mantissa * 10 ^ b.shift) (b.mantissa * 10 ^ a.shift)⟩

instance : IsTrans JSDec JSDec.le where
  trans a b c hab hbc := by
    simp only [JSDec.le] at hab hbc ⊢
    have hpb : (0:ℤ) < 10 ^ b.shift := pow_pos (by norm_num) _
    have hten : (0:ℤ) ≤ 10 := by norm_num
    have h1 := mul_le_mul_of_nonneg_right hab (pow_nonneg hten c.shift)
    have h2 := mul_le_mul_of_nonneg_right hbc (pow_nonneg hten a.shift)
    have key : a.mantissa * 10 ^ c.shift * 10 ^ b.shift ≤
        c.mantissa * 10 ^ a.shift * 10 ^ b.shift := by
      calc a.mantissa * 10 ^ c.shift * 10 ^ b.shift
          = a.mantissa * 10 ^ b.shift * 10 ^ c.shift := by ring
        _ ≤ b.mantissa * 10 ^ a.shift * 10 ^ c.shift := h1
        _ = b.mantissa * 10 ^ c.shift * 10 ^ a.shift := by ring
        _ ≤ c.mantissa * 10 ^ b.shift * 10 ^ a.shift := h2
        _ = c.mantissa * 10 ^ a.shift * 10 ^ b.shift := by ring
    exact le_of_mul_le_mul_right key hpb

/-- A working value pool (`Record<string, number>`): concept tag to value;
an absent key reads as `NaN`/`undefined`. -/
def Pool : Type := String → JSNum

/-- Pointwise update of a pool, modelling `pool[k] = v`. -/
def poolSet (p : Pool) (k : String) (v : JSNum) : Pool :=
  fun t => if t = k then v else p t

/-- The empty pool: every key absent. -/
def emptyPool : Pool := fun _ => .nan

/-- `IncomeSankeyNodeTag` action: `"add" | "subtract"`. -/
inductive TagAction where
  | add : TagAction
  | subtract : TagAction
deriving DecidableEq, Repr

/-- `IncomeSankeyNodeTag`: a plain concept-tag string, or an object with a tag
and an optional action. -/
inductive IncomeSankeyNodeTag where
  | str (tag : String) : IncomeSankeyNodeTag
  | obj (tag : String) (action : Option TagAction) : IncomeSankeyNodeTag
deriving DecidableEq, Repr

/-- The concept tag named by a tag entry. -/
def tagName : IncomeSankeyNodeTag → String
  | .str t => t
  | .obj t _ => t

/-- `valueSource` mode: `"unlimited" | "reported"`. -/
inductive ValueSource where
  | unlimited : ValueSource
  | reported : ValueSource
deriving DecidableEq, Repr

/-- Link condition sign test: `"positive" | "negative"`. -/
inductive CondType where
  | positive : CondType
  | negative : CondType
deriving DecidableEq, Repr

/-- A link condition `{ type, concept }`. -/
structure LinkCondition where
  type : CondType
  concept : String
deriving DecidableEq, Repr

/-- `IncomeSankeyNode` template record.  Optional TS fields are `Option`s with
`none` meaning the property is absent. -/
structure IncomeSankeyNode where
  id : String
  order : JSDec
  title : Option String := none
  titleWhenNegative : Option String := none
  color : Option String := none
  colorWhenNegative : Option String := none
  icon : Option String := none
  iconWhenNegative : Option String := none
  conceptTags : List IncomeSankeyNodeTag := []
  tags : Option (List String) := none
  usePriorPeriod : Option Bool := none
  valueSource : Option ValueSource := none
deriving DecidableEq, Repr

/-- `IncomeSankeyLink` template record. -/
structure IncomeSankeyLink where
  source : String
  target : String
  order : JSDec
  condition : Option LinkCondition := none
  type : Option String := none
deriving DecidableEq, Repr

/-- `IncomeSankeyTemplate`. -/
structure IncomeSankeyTemplate where
  nodes : List IncomeSankeyNode
  links : List IncomeSankeyLink
deriving DecidableEq, Repr

/-- A company fact: concept tag and the result of `Number.parseFloat` on its
value string (`JSNum.nan` when the string does not parse as a number). -/
structure CompanyFact where
  concept : String
  value : JSNum
deriving DecidableEq, Repr

/-- A reporting period.  Dates are abstracted to an integer timestamp
(`new Date(end_date).getTime()`); the period holds its own fact list as the
compiler consumes it. -/
structure FactPeriod where
  id : String
  end_date : ℤ
  facts : List CompanyFact
deriving DecidableEq, Repr, Inhabited

/-- A concept description from the fact provider. -/
structure Concept where
  tag : String
  label : String
deriving DecidableEq, Repr

/-- The fact dataset consumed by the compiler. -/
structure CompanyFactsResponse where
  concepts : List Concept
  periods : List FactPeriod
deriving DecidableEq, Repr

/-- Output graph node. -/
structure SankeyNode where
  id : String
  title : String
  color : Option String
  value : ℤ
  valueLabel : String
deriving DecidableEq, Repr

/-- Output graph link. -/
structure SankeyLink where
  source : String
  target : String
  value : ℤ
  color : String
  type : Option String
deriving DecidableEq, Repr

/-- Output graph. -/
structure SankeyGraph where
  nodes : List SankeyNode
  links : List SankeyLink
deriving DecidableEq, Repr

/-! ### The default template (transcribed verbatim from the source) -/

/-- `defaultIncomeSankeyTemplate` from the source, commented-out entries
omitted. -/
def defaultIncomeSankeyTemplate : IncomeSankeyTemplate :=
  { nodes :=
      [ { id := "revenue", order := 1, title := some "Revenue",
          color := some "blue",
          conceptTags :=
            [.str "us-gaap:RevenueFromContractWithCustomerExcludingAssessedTax"] },
        { id := "bank-account", order := 2, title := some "Bank Account",
          color := some "grey",
          conceptTags := [.str "us-gaap:CashAndCashEquivalentsAtCarryingValue"],
          usePriorPeriod := some true,
          valueSource := some .unlimited },
        { id := "gross-profit", order := 3, title := some "Gross Profit",
          titleWhenNegative := some "Gross Loss",
          color := some "green", colorWhenNegative := some "red",
          conceptTags := [.str "us-gaap:GrossProfit"] },
        { id := "cost-of-goods-sold", order := 4, title := some "Cost of Goods Sold",
          color := some "red",
          conceptTags := [.str "us-gaap:CostOfGoodsAndServicesSold"] },
        { id := "operating-profit", order := 5, title := some "Operating Profit",
          titleWhenNegative := some "Operating Loss",
          color := some "green", colorWhenNegative := some "red",
          conceptTags := [.str "us-gaap:OperatingIncomeLoss"],
          tags := some ["EBIT"] },
        { id := "net-profit", order := 6, title := some "Net Profit",
          titleWhenNegative := some "Net Loss",
          color := some "green", colorWhenNegative := some "red",
          conceptTags := [.str "us-gaap:NetIncomeLoss"],
          tags := some ["EAT"] },
        { id := "operating-expenses", order := 7, title := some "Operating Expenses",
          color := some "red",
          conceptTags := [.str "us-gaap:CostsAndExpenses", .str "us-gaap:OperatingExpenses"] },
        { id := "research-and-development", order := 8,
          title := some "Research and Development",
          color := some "red",
          conceptTags := [.str "us-gaap:ResearchAndDevelopmentExpense"],
          tags := some ["operating-expense-component"] },
        { id := "selling-general-and-administrative", order := 9,
          title := some "Selling, General and Administrative",
          color := some "red",
          conceptTags := [.str "us-gaap:SellingGeneralAndAdministrativeExpense"],
          tags := some ["operating-expense-component"] },
        { id := "impairment-of-long-lived-assets", order := 10,
          title := some "Other Expenses",
          color := some "red",
          conceptTags := [.str "us-gaap:ImpairmentOfLongLivedAssetsHeldForUse"],
          tags := some ["operating-expense-component"] },
        { id := "interest", order := 11, title := some "Interest",
          color := some "red",
          conceptTags :=
            [.str "us-gaap:InterestExpenseNonoperating",
             .obj "us-gaap:InvestmentIncomeInterest" (some .subtract)] },
        { id := "tax", order := 12, title := some "Tax",
          color := some "red",
          conceptTags := [.str "us-gaap:IncomeTaxExpenseBenefit"] } ],
    links :=
      [ { source := "revenue", target := "cost-of-goods-sold", order := 1 },
        { source := "bank-account", target := "cost-of-goods-sold", order := 2,
          condition := some ⟨.negative, "gross-profit"⟩ },
        { source := "revenue", target := "gross-profit", order := 3 },
        { source := "cost-of-goods-sold", target := "gross-profit", order := 4,
          condition := some ⟨.negative, "gross-profit"⟩ },
        { source := "gross-profit", target := "operating-expenses", order := 5,
          condition := some ⟨.positive, "gross-profit"⟩,
          type := some "research-and-development" },
        { source := "gross-profit", target := "operating-expenses", order := .dec 53 1,
          condition := some ⟨.positive, "gross-profit"⟩,
          type := some "selling-general-and-administrative" },
        { source := "gross-profit", target := "operating-expenses", order := .dec 56 1,
          condition := some ⟨.positive, "gross-profit"⟩,
          type := some "impairment-of-long-lived-assets" },
        { source := "gross-profit", target := "operating-profit", order := 6,
          condition := some ⟨.positive, "operating-profit"⟩ },
        { source := "gross-profit", target := "operating-profit", order := 6,
          condition := some ⟨.negative, "gross-profit"⟩ },
        { source := "bank-account", target := "operating-expenses", order := 8,
          condition := some ⟨.negative, "gross-profit"⟩,
          type := some "research-and-development" },
        { source := "bank-account", target := "operating-expenses", order := .dec 83 1,
          condition := some ⟨.negative, "gross-profit"⟩,
          type := some "selling-general-and-administrative" },
        { source := "bank-account", target := "operating-expenses", order := .dec 86 1,
          condition := some ⟨.negative, "gross-profit"⟩,
          type := some "impairment-of-long-lived-assets" },
        { source := "operating-expenses", target := "operating-profit", order := .dec 105 1,
          condition := some ⟨.negative, "operating-profit"⟩ },
        { source := "operating-profit", target := "interest", order := 12,
          condition := some ⟨.positive, "operating-profit"⟩ },
        { source := "interest", target := "net-profit", order := 12,
          condition := some ⟨.negative, "operating-profit"⟩ },
        { source := "bank-account", target := "interest", order := 13,
          condition := some ⟨.negative, "operating-profit"⟩ },
        { source := "operating-profit", target := "tax", order := 14,
          condition := some ⟨.positive, "operating-profit"⟩ },
        { source := "bank-account", target := "tax", order := 15,
          condition := some ⟨.negative, "operating-profit"⟩ },
        { source := "tax", target := "net-profit", order := 12,
          condition := some ⟨.negative, "operating-profit"⟩ },
        { source := "operating-profit", target := "net-profit", order := 16,
          condition := some ⟨.positive, "operating-profit"⟩ } ] }

/-! ### Template merging -/

/-- `linkKey`: the map key of a link. -/
def linkKey (link : IncomeSankeyLink) : String :=
  link.source ++ "|" ++ link.target

/-- First-argument-wins choice, modelling which field survives a JS object
spread `{...existing, ...override}` (the override's field when present). -/
def oOr {α : Type} : Option α → Option α → Option α
  | some a, _ => some a
  | none, b => b

/-- `{...existing, ...node}` for node records: the override's present fields
win; TS-required fields are always present on the override. -/
def mergeNodeRecords (b o : IncomeSankeyNode) : IncomeSankeyNode :=
  { id := o.id, order := o.order,
    title := oOr o.title b.title,
    titleWhenNegative := oOr o.titleWhenNegative b.titleWhenNegative,
    color := oOr o.color b.color,
    colorWhenNegative := oOr o.colorWhenNegative b.colorWhenNegative,
    icon := oOr o.icon b.icon,
    iconWhenNegative := oOr o.iconWhenNegative b.iconWhenNegative,
    conceptTags := o.conceptTags,
    tags := oOr o.tags b.tags,
    usePriorPeriod := oOr o.usePriorPeriod b.usePriorPeriod,
    valueSource := oOr o.valueSource b.valueSource }

/-- `{...existing, ...link}` for link records. -/
def mergeLinkRecords (b o : IncomeSankeyLink) : IncomeSankeyLink :=
  { source := o.source, target := o.target, order := o.order,
    condition := oOr o.condition b.condition,
    type := oOr o.type b.type }

/-- Insertion-ordered map (`Map` in JS): set a key, updating the first
occurrence in place or appending. -/
def setEntry {α : Type} : List (String × α) → String → α → List (String × α)
  | [], k, v => [(k, v)]
  | e :: rest, k, v => if e.1 = k then (k, v) :: rest else e :: setEntry rest k v

/-- `Map.get`. -/
def lookupEntry {α : Type} : List (String × α) → String → Option α
  | [], _ => none
  | e :: rest, k => if e.1 = k then some e.2 else lookupEntry rest k

/-- `Array.from(map.values())`. -/
def entryValues {α : Type} (m : List (String × α)) : List α :=
  m.map Prod.snd

/-- One step of overlaying an override entry onto the map. -/
def overlayStep {α : Type} (key : α → String) (mrg : α → α → α)
    (m : List (String × α)) (x : α) : List (String × α) :=
  match lookupEntry m (key x) with
  | some e => setEntry m (key x) (mrg e x)
  | none => setEntry m (key x) x

/-- Build the id-keyed map of the base collection (`map.set(key, {...x})`). -/
def toEntryMap {α : Type} (key : α → String) (xs : List α) : List (String × α) :=
  xs.foldl (fun m x => setEntry m (key x) x) []

/-- Overlay all override entries onto the map. -/
def overlayAll {α : Type} (key : α → String) (mrg : α → α → α)
    (m : List (String × α)) (xs : List α) : List (String × α) :=
  xs.foldl (overlayStep key mrg) m

/-- Merge a base and an override collection by key, in map insertion order. -/
def mergeById {α : Type} (key : α → String) (mrg : α → α → α)
    (base ovr : List α) : List α :=
  entryValues (overlayAll key mrg (toEntryMap key base) ovr)

/-- The sort relation `(a, b) => a.order - b.order` for nodes (stable JS sort,
modelled by insertion sort). -/
def nodeOrderLe (a b : IncomeSankeyNode) : Prop := JSDec.le a.order b.order

instance : DecidableRel nodeOrderLe :=
  fun a b => inferInstanceAs (Decidable (JSDec.le a.order b.order))

instance : IsTotal IncomeSankeyNode nodeOrderLe :=
  ⟨fun a b => total_of JSDec.le a.order b.order⟩

instance : IsTrans IncomeSankeyNode nodeOrderLe :=
  ⟨fun _ _ _ h h' => trans_of JSDec.le h h'⟩

/-- The sort relation for links. -/
def linkOrderLe (a b : IncomeSankeyLink) : Prop := JSDec.le a.order b.order

instance : DecidableRel linkOrderLe :=
  fun a b => inferInstanceAs (Decidable (JSDec.le a.order b.order))

instance : IsTotal IncomeSankeyLink linkOrderLe :=
  ⟨fun a b => total_of JSDec.le a.order b.order⟩

instance : IsTrans IncomeSankeyLink linkOrderLe :=
  ⟨fun _ _ _ h h' => trans_of JSDec.le h h'⟩

/-- `mergeIncomeSankeyTemplates`. -/
def mergeIncomeSankeyTemplates (defaultTemplate : IncomeSankeyTemplate)
    (overrideTemplate : Option IncomeSankeyTemplate) : IncomeSankeyTemplate :=
  match overrideTemplate with
  | none =>
    { nodes := List.insertionSort nodeOrderLe defaultTemplate.nodes,
      links := List.insertionSort linkOrderLe defaultTemplate.links }
  | some ovr =>
    { nodes := List.insertionSort nodeOrderLe
        (mergeById (fun n => n.id) mergeNodeRecords defaultTemplate.nodes ovr.nodes),
      links := List.insertionSort linkOrderLe
        (mergeById linkKey mergeLinkRecords defaultTemplate.links ovr.links) }

/-! ### Value resolution -/

/-- `getConceptTags`: the effective value basis of a link — the node template
named by the link's `type` when one exists, else the given node's own tags. -/
def getConceptTags (tmpl : IncomeSankeyTemplate) (node : Option IncomeSankeyNode)
    (link : IncomeSankeyLink) : List IncomeSankeyNodeTag :=
  match link.type.bind (fun ty => tmpl.nodes.find? (fun n => n.id == ty)) with
  | some linkNode => linkNode.conceptTags
  | none => (node.map (fun n => n.conceptTags)).getD []

/-- One step of the concept-tag reduce shared by `getConceptTagsValue` and
`getNodeValue`:
`acc + values[tag] || 0` for a plain string tag, and
`acc + (tag.action === "add" ? values[tag.tag] : -values[tag.tag] || 0)`
for an object tag. -/
def conceptReduceStep (values : Pool) (acc : JSNum) : IncomeSankeyNodeTag → JSNum
  | .str t => orZero (jAdd acc (values t))
  | .obj t a =>
    match a with
    | some .add => jAdd acc (values t)
    | _ => jAdd acc (orZero (jNeg (values t)))

/-- The whole reduce, with the trailing `|| 0`. -/
def conceptReduce (tags : List IncomeSankeyNodeTag) (values : Pool) : ℤ :=
  finNum (tags.foldl (conceptReduceStep values) (.num 0))

/-- `getConceptTagsValue`. -/
def getConceptTagsValue (conceptTags : List IncomeSankeyNodeTag)
    (usePriorPeriod : Bool) (valuesByConcept : Pool)
    (valuesByConceptPrior : Option Pool) : ℤ :=
  let values :=
    match valuesByConceptPrior with
    | some p => if usePriorPeriod then p else valuesByConcept
    | none => valuesByConcept
  conceptReduce conceptTags values

/-- The non-indirected part of `getNodeValue`: select the pool by the node's
own `usePriorPeriod` flag and reduce its concept tags. -/
def getNodeValueCore (node : IncomeSankeyNode) (valuesByConcept : Pool)
    (valuesByConceptPrior : Option Pool) : ℤ :=
  let values :=
    match valuesByConceptPrior with
    | some p => if node.usePriorPeriod = some true then p else valuesByConcept
    | none => valuesByConcept
  conceptReduce node.conceptTags values

/-- `getNodeValue` (the recursion through a link's `type` node unfolded: the
recursive call passes `link = undefined`, so it is exactly the core). -/
def getNodeValue (tmpl : IncomeSankeyTemplate) (node : Option IncomeSankeyNode)
    (link : Option IncomeSankeyLink) (valuesByConcept : Pool)
    (valuesByConceptPrior : Option Pool) : ℤ :=
  match node with
  | none => 0
  | some n =>
    match (link.bind (fun l => l.type)).bind
        (fun ty => tmpl.nodes.find? (fun m => m.id == ty)) with
    | some linkNode => getNodeValueCore linkNode valuesByConcept valuesByConceptPrior
    | none => getNodeValueCore n valuesByConcept valuesByConceptPrior

/-- `getAbsoluteNodeValue`. -/
def getAbsoluteNodeValue (tmpl : IncomeSankeyTemplate) (node : Option IncomeSankeyNode)
    (link : Option IncomeSankeyLink) (valuesByConcept : Pool)
    (valuesByConceptPrior : Option Pool) : ℤ :=
  |getNodeValue tmpl node link valuesByConcept valuesByConceptPrior|

/-- `adjustConceptValues`, as a pure pool transformer: `pool[tag] -= value`
for a plain tag or an `"add"`-action tag, `pool[tag] += value` otherwise. -/
def adjustConceptValues (tags : List IncomeSankeyNodeTag) (value : ℤ)
    (valuesByConcept : Pool) : Pool :=
  tags.foldl
    (fun p t =>
      match t with
      | .str tg => poolSet p tg (jSubI (p tg) value)
      | .obj tg a =>
        match a with
        | some .add => poolSet p tg (jSubI (p tg) value)
        | _ => poolSet p tg (jAddI (p tg) value))
    valuesByConcept

/-! ### Display helpers (string rendering abstracted by `toString`) -/

/-- Abstract number rendering. -/
def numStr (q : ℤ) : String := toString q

/-- `formatNodeValueLabel`: negatives parenthesized. -/
def formatNodeValueLabel (value : ℤ) : String :=
  if 0 ≤ value then numStr value else "(" ++ numStr (-value) ++ ")"

/-- `getNodeTitle`. -/
def getNodeTitle (node : IncomeSankeyNode) (companyFactsResponse : CompanyFactsResponse)
    (value : Option ℤ) : String :=
  let useWhenNegative :=
    match value with
    | some v => decide (v < 0)
    | none => false
  match useWhenNegative, node.titleWhenNegative with
  | true, some t => t
  | _, _ =>
    match node.title with
    | some t => t
    | none =>
      match node.conceptTags.findSome?
          (fun tag =>
            match tag with
            | .str t =>
              (companyFactsResponse.concepts.find? (fun c => c.tag == t)).map
                (fun c => c.label)
            | .obj _ _ => none) with
      | some label => label
      | none => node.id

/-- `getNodeColor`. -/
def getNodeColor (node : IncomeSankeyNode) (value : ℤ) : Option String :=
  if value < 0 ∧ node.colorWhenNegative ≠ none then node.colorWhenNegative
  else node.color

/-! ### Period handling and pools -/

/-- Descending-by-end-date sort relation on periods
(`(a, b) => dateOf b - dateOf a`). -/
def periodDescLe (a b : FactPeriod) : Prop := b.end_date ≤ a.end_date

instance : DecidableRel periodDescLe :=
  fun a b => inferInstanceAs (Decidable (b.end_date ≤ a.end_date))

instance : IsTotal FactPeriod periodDescLe :=
  ⟨fun a b => le_total b.end_date a.end_date⟩

instance : IsTrans FactPeriod periodDescLe :=
  ⟨fun _ _ _ h h' => le_trans h' h⟩

/-- `getPriorPeriod`: the entry after the requested period in the
descending-by-end-date order, if any. -/
def getPriorPeriod (periods : List FactPeriod) (periodId : String) : Option FactPeriod :=
  let sorted := List.insertionSort periodDescLe periods
  match sorted.findIdx? (fun p => p.id == periodId) with
  | some idx => sorted[idx + 1]?
  | none => none

/-- Build a concept→value pool from a period's facts
(`acc[fact.concept] = Number.parseFloat(fact.value)`). -/
def buildPool (facts : List CompanyFact) : Pool :=
  facts.foldl (fun acc f => poolSet acc f.concept f.value) emptyPool

/-! ### The flow apportioner -/

/-- The two current-period pools and the two optional prior-period pools.
`src`/`priorSrc` are `valuesByConceptSource`/`valuesByConceptPriorSource`,
`tgt`/`priorTgt` the target-side counterparts. -/
structure ApportionState where
  src : Pool
  tgt : Pool
  priorSrc : Option Pool
  priorTgt : Option Pool

/-- `incomeSankeyNodes.find(n => n.id === l.source)`. -/
def sourceNodeOf (fN : List IncomeSankeyNode) (l : IncomeSankeyLink) :
    Option IncomeSankeyNode :=
  fN.find? (fun n => n.id == l.source)

/-- `incomeSankeyNodes.find(n => n.id === l.target)`. -/
def targetNodeOf (fN : List IncomeSankeyNode) (l : IncomeSankeyLink) :
    Option IncomeSankeyNode :=
  fN.find? (fun n => n.id == l.target)

/-- `node?.usePriorPeriod || false`. -/
def usePT (node : Option IncomeSankeyNode) : Bool :=
  match node.bind (fun n => n.usePriorPeriod) with
  | some b => b
  | none => false

/-- The effective source basis of a link. -/
def sourceBasisOf (tmpl : IncomeSankeyTemplate) (fN : List IncomeSankeyNode)
    (l : IncomeSankeyLink) : List IncomeSankeyNodeTag :=
  getConceptTags tmpl (sourceNodeOf fN l) l

/-- The basis used for the link's target side (note: `getConceptTags` also
consults the link's `type` here). -/
def targetBasisOf (tmpl : IncomeSankeyTemplate) (fN : List IncomeSankeyNode)
    (l : IncomeSankeyLink) : List IncomeSankeyNodeTag :=
  getConceptTags tmpl (targetNodeOf fN l) l

/-- `absSourceValue` for a link in the current pool state. -/
def sourceRemainingOf (tmpl : IncomeSankeyTemplate) (fN : List IncomeSankeyNode)
    (st : ApportionState) (l : IncomeSankeyLink) : ℤ :=
  |getConceptTagsValue (sourceBasisOf tmpl fN l) (usePT (sourceNodeOf fN l))
      st.src st.priorSrc|

/-- `absTargetValue` for a link in the current pool state. -/
def targetRemainingOf (tmpl : IncomeSankeyTemplate) (fN : List IncomeSankeyNode)
    (st : ApportionState) (l : IncomeSankeyLink) : ℤ :=
  |getConceptTagsValue (targetBasisOf tmpl fN l) (usePT (targetNodeOf fN l))
      st.tgt st.priorTgt|

/-- `conditionValue`: the condition's node re-resolved from the live
source-side pools. -/
def conditionValueOf (tmpl : IncomeSankeyTemplate) (fN : List IncomeSankeyNode)
    (st : ApportionState) (l : IncomeSankeyLink) : ℤ :=
  getNodeValue tmpl
    (l.condition.bind (fun c => fN.find? (fun n => n.id == c.concept)))
    none st.src st.priorSrc

/-- Whether the link's condition admits it (no condition always passes;
`positive` requires conditionValue `> 0`, `negative` requires `<= 0`). -/
def passesCondition (tmpl : IncomeSankeyTemplate) (fN : List IncomeSankeyNode)
    (st : ApportionState) (l : IncomeSankeyLink) : Bool :=
  match l.condition with
  | none => true
  | some c =>
    match c.type with
    | .positive => decide (0 < conditionValueOf tmpl fN st l)
    | .negative => decide (conditionValueOf tmpl fN st l ≤ 0)

/-- The emitted flow magnitude of a link. -/
def flowValueOf (tmpl : IncomeSankeyTemplate) (fN : List IncomeSankeyNode)
    (st : ApportionState) (l : IncomeSankeyLink) : ℤ :=
  if (sourceNodeOf fN l).bind (fun n => n.valueSource) = some .unlimited then
    targetRemainingOf tmpl fN st l
  else
    min (sourceRemainingOf tmpl fN st l) (targetRemainingOf tmpl fN st l)

/-- The source-side pool adjustment of a link (skipped for an absent or
`unlimited` source node). -/
def adjustSourceState (tmpl : IncomeSankeyTemplate) (fN : List IncomeSankeyNode)
    (st : ApportionState) (l : IncomeSankeyLink) (value : ℤ) : ApportionState :=
  match sourceNodeOf fN l with
  | none => st
  | some sn =>
    if sn.valueSource = some .unlimited then st
    else
      match st.priorSrc with
      | some p =>
        if sn.usePriorPeriod = some true then
          { st with priorSrc := some (adjustConceptValues (sourceBasisOf tmpl fN l) value p) }
        else { st with src := adjustConceptValues (sourceBasisOf tmpl fN l) value st.src }
      | none =>
        { st with src := adjustConceptValues (sourceBasisOf tmpl fN l) value st.src }

/-- The target-side pool adjustment of a link (skipped for an absent target
node). -/
def adjustTargetState (tmpl : IncomeSankeyTemplate) (fN : List IncomeSankeyNode)
    (st : ApportionState) (l : IncomeSankeyLink) (value : ℤ) : ApportionState :=
  match targetNodeOf fN l with
  | none => st
  | some tn =>
    match st.priorTgt with
    | some p =>
      if tn.usePriorPeriod = some true then
        { st with priorTgt := some (adjustConceptValues (targetBasisOf tmpl fN l) value p) }
      else { st with tgt := adjustConceptValues (targetBasisOf tmpl fN l) value st.tgt }
    | none =>
      { st with tgt := adjustConceptValues (targetBasisOf tmpl fN l) value st.tgt }

/-- The pool state after a link whose computed flow is `value` (`if (value !== 0)`
guards both adjustments). -/
def stepState (tmpl : IncomeSankeyTemplate) (fN : List IncomeSankeyNode)
    (st : ApportionState) (l : IncomeSankeyLink) (value : ℤ) : ApportionState :=
  if value = 0 then st
  else
    adjustTargetState tmpl fN (adjustSourceState tmpl fN st l value) l value

/-- Process one link: returns the new pool state and the emitted link record
(or `none` when the condition fails; no mutation happens in that case). -/
def processLink (tmpl : IncomeSankeyTemplate) (fN : List IncomeSankeyNode)
    (st : ApportionState) (l : IncomeSankeyLink) :
    ApportionState × Option SankeyLink :=
  if passesCondition tmpl fN st l then
    let value := flowValueOf tmpl fN st l
    (stepState tmpl fN st l value,
      some { source := l.source, target := l.target, value := value,
             color := "black", type := l.type })
  else (st, none)

/-- Process the filtered links in order, threading the pool state
(the `.map(...)` with pool mutation followed by `.filter(x => x != null)`). -/
def runLinks (tmpl : IncomeSankeyTemplate) (fN : List IncomeSankeyNode) :
    ApportionState → List IncomeSankeyLink → List SankeyLink
  | _, [] => []
  | st, l :: ls =>
    match processLink tmpl fN st l with
    | (st', some sl) => sl :: runLinks tmpl fN st' ls
    | (st', none) => runLinks tmpl fN st' ls

/-! ### The pipeline -/

/-- The zero-value node filter. -/
def filteredNodesOf (tmpl : IncomeSankeyTemplate) (src : Pool)
    (priorSrc : Option Pool) : List IncomeSankeyNode :=
  tmpl.nodes.filter
    (fun n => decide (getAbsoluteNodeValue tmpl (some n) none src priorSrc ≠ 0))

/-- The output node records. -/
def sankeyNodesOf (cfr : CompanyFactsResponse) (tmpl : IncomeSankeyTemplate)
    (fN : List IncomeSankeyNode) (src : Pool) (priorSrc : Option Pool) :
    List SankeyNode :=
  fN.map (fun n =>
    let value := getNodeValue tmpl (some n) none src priorSrc
    { id := n.id,
      title := getNodeTitle n cfr (some value) ++ "\n" ++
        (if 0 < value then numStr value else "(" ++ numStr |value| ++ ")"),
      color := getNodeColor n value,
      value := value,
      valueLabel := formatNodeValueLabel value })

/-- JS string truthiness (`l.type ? ... : ...`). -/
def strTruthy (s : String) : Bool := s ≠ ""

/-- The link filter: the link survives when a surviving node matches the
link's `type` if the `type` is a truthy string, else the link's source, and a
surviving node matches the target. -/
def filteredLinksOf (tmpl : IncomeSankeyTemplate) (nodes : List SankeyNode) :
    List IncomeSankeyLink :=
  tmpl.links.filter (fun l =>
    (match l.type with
     | some ty =>
       if strTruthy ty then nodes.any (fun n => n.id == ty)
       else nodes.any (fun n => n.id == l.source)
     | none => nodes.any (fun n => n.id == l.source)) &&
    nodes.any (fun n => n.id == l.target))

/-- The freshly seeded pool state of one compile call: the current-period
facts are indexed twice (`valuesByConceptSource` and `valuesByConceptTarget`),
and likewise for the prior period when one exists. -/
def initStateOf (period : FactPeriod) (priorPeriod : Option FactPeriod) :
    ApportionState :=
  { src := buildPool period.facts,
    tgt := buildPool period.facts,
    priorSrc := priorPeriod.map (fun p => buildPool p.facts),
    priorTgt := priorPeriod.map (fun p => buildPool p.facts) }

/-- `getIncomeSankey`: the compiler entry point.  The thrown "Period not
found" error is modelled by `Except.error`. -/
def getIncomeSankey (companyFactsResponse : CompanyFactsResponse) (periodId : String)
    (incomeSankeyTemplateOverride : Option IncomeSankeyTemplate := none) :
    Except String SankeyGraph :=
  match companyFactsResponse.periods.find? (fun p => p.id == periodId) with
  | none => .error ("Period " ++ periodId ++ " not found")
  | some period =>
    let priorPeriod := getPriorPeriod companyFactsResponse.periods periodId
    let tmpl := mergeIncomeSankeyTemplates defaultIncomeSankeyTemplate
      incomeSankeyTemplateOverride
    let st := initStateOf period priorPeriod
    let fN := filteredNodesOf tmpl st.src st.priorSrc
    let nodes := sankeyNodesOf companyFactsResponse tmpl fN st.src st.priorSrc
    let fL := filteredLinksOf tmpl nodes
    let links := runLinks tmpl fN st fL
    .ok { nodes := nodes, links := links }

/-! ### Derived readings used to state the claims -/

/-- Sum of the flow magnitudes of the emitted links with the given source id. -/
def sumSourceFlows (s : String) (ls : List SankeyLink) : ℤ :=
  (ls.map (fun l => if l.source = s then l.value else 0)).sum

/-- The target-remaining reading the specification describes for claim C2:
the target node's *own* concept contributions read from the live target-side
pool (no `type` indirection). -/
def ownTargetRemainingOf (fN : List IncomeSankeyNode) (st : ApportionState)
    (l : IncomeSankeyLink) : ℤ :=
  |getConceptTagsValue (((targetNodeOf fN l).map (fun n => n.conceptTags)).getD [])
      (usePT (targetNodeOf fN l)) st.tgt st.priorTgt|

/-! ### Concrete datasets used by the counterexamples and witnesses -/

/-- C1 data: a reported node with a negative resolved value and two outgoing
links. -/
def factsC1 : List CompanyFact :=
  [⟨"c:src", .num (-5)⟩, ⟨"c:t1", .num 5⟩, ⟨"c:t2", .num 100⟩]

/-- C1 dataset. -/
def cfrC1 : CompanyFactsResponse :=
  { concepts := [], periods := [{ id := "p", end_date := 0, facts := factsC1 }] }

/-- C1 override template. -/
def ovrC1 : IncomeSankeyTemplate :=
  { nodes :=
      [ { id := "src", order := 100, conceptTags := [.str "c:src"] },
        { id := "t1", order := 101, conceptTags := [.str "c:t1"] },
        { id := "t2", order := 102, conceptTags := [.str "c:t2"] } ],
    links :=
      [ { source := "src", target := "t1", order := 100 },
        { source := "src", target := "t2", order := 101 } ] }

/-- C1 merged template. -/
def tmplC1 : IncomeSankeyTemplate :=
  mergeIncomeSankeyTemplates defaultIncomeSankeyTemplate (some ovrC1)

/-- The C1 source node record. -/
def srcNodeC1 : IncomeSankeyNode :=
  { id := "src", order := 100, conceptTags := [.str "c:src"] }

/-- C2 data: a link carrying a `type`; the type node's value (70) differs from
the target's own value (50). -/
def cfrC2 : CompanyFactsResponse :=
  { concepts := [],
    periods := [{ id := "p", end_date := 0,
                  facts := [⟨"c:s", .num 100⟩, ⟨"c:b", .num 70⟩, ⟨"c:t", .num 50⟩] }] }

/-- C2 override template. -/
def ovrC2 : IncomeSankeyTemplate :=
  { nodes :=
      [ { id := "S", order := 100, conceptTags := [.str "c:s"] },
        { id := "B", order := 101, conceptTags := [.str "c:b"] },
        { id := "T", order := 102, conceptTags := [.str "c:t"] } ],
    links := [ { source := "S", target := "T", order := 100, type := some "B" } ] }

/-- C2 merged template. -/
def tmplC2 : IncomeSankeyTemplate :=
  mergeIncomeSankeyTemplates defaultIncomeSankeyTemplate (some ovrC2)

/-- C2 surviving nodes. -/
def fNC2 : List IncomeSankeyNode :=
  filteredNodesOf tmplC2 (buildPool (cfrC2.periods.headI).facts) none

/-- C2 initial pool state. -/
def stC2 : ApportionState := initStateOf (cfrC2.periods.headI) none

/-- The C2 typed link. -/
def linkC2 : IncomeSankeyLink :=
  { source := "S", target := "T", order := 100, type := some "B" }

/-- C3 data: link A→B deducts tag `c:a` on behalf of its source; link C→D then
reads `c:a` as its target basis. -/
def cfrC3 : CompanyFactsResponse :=
  { concepts := [],
    periods := [{ id := "p", end_date := 0,
                  facts := [⟨"c:a", .num 10⟩, ⟨"c:b", .num 10⟩, ⟨"c:c", .num 7⟩] }] }

/-- C3 override template. -/
def ovrC3 : IncomeSankeyTemplate :=
  { nodes :=
      [ { id := "A", order := 100, conceptTags := [.str "c:a"] },
        { id := "B", order := 101, conceptTags := [.str "c:b"] },
        { id := "C", order := 102, conceptTags := [.str "c:c"] },
        { id := "D", order := 103, conceptTags := [.str "c:a"] } ],
    links :=
      [ { source := "A", target := "B", order := 100 },
        { source := "C", target := "D", order := 101 } ] }

/-- C3 merged template. -/
def tmplC3 : IncomeSankeyTemplate :=
  mergeIncomeSankeyTemplates defaultIncomeSankeyTemplate (some ovrC3)

/-- C3 surviving nodes. -/
def fNC3 : List IncomeSankeyNode :=
  filteredNodesOf tmplC3 (buildPool (cfrC3.periods.headI).facts) none

/-- C3 initial pool state. -/
def stC3 : ApportionState := initStateOf (cfrC3.periods.headI) none

/-- The first C3 link (A→B). -/
def linkC3ab : IncomeSankeyLink := { source := "A", target := "B", order := 100 }

/-- C4 data: the first link drains node X's tag; the second link's condition
references X. -/
def cfrC4 : CompanyFactsResponse :=
  { concepts := [],
    periods := [{ id := "p", end_date := 0,
                  facts := [⟨"c:x", .num 10⟩, ⟨"c:y", .num 10⟩,
                            ⟨"c:p", .num 5⟩, ⟨"c:q", .num 5⟩] }] }

/-- C4 override template. -/
def ovrC4 : IncomeSankeyTemplate :=
  { nodes :=
      [ { id := "X", order := 100, conceptTags := [.str "c:x"] },
        { id := "Y", order := 101, conceptTags := [.str "c:y"] },
        { id := "P", order := 102, conceptTags := [.str "c:p"] },
        { id := "Q", order := 103, conceptTags := [.str "c:q"] } ],
    links :=
      [ { source := "X", target := "Y", order := 100 },
        { source := "P", target := "Q", order := 101,
          condition := some ⟨.positive, "X"⟩ } ] }

/-- C4 merged template. -/
def tmplC4 : IncomeSankeyTemplate :=
  mergeIncomeSankeyTemplates defaultIncomeSankeyTemplate (some ovrC4)

/-- C4 surviving nodes. -/
def fNC4 : List IncomeSankeyNode :=
  filteredNodesOf tmplC4 (buildPool (cfrC4.periods.headI).facts) none

/-- C4 pool state after the first link (X→Y) has been processed. -/
def stC4 : ApportionState :=
  (processLink tmplC4 fNC4 (initStateOf (cfrC4.periods.headI) none)
    { source := "X", target := "Y", order := 100 }).1

/-- The conditioned C4 link (P→Q). -/
def linkC4pq : IncomeSankeyLink :=
  { source := "P", target := "Q", order := 101, condition := some ⟨.positive, "X"⟩ }

/-- C5 data: the typed link's nominal source S resolves to 0 and is filtered
out, but the type node B survives. -/
def cfrC5 : CompanyFactsResponse :=
  { concepts := [],
    periods := [{ id := "p", end_date := 0,
                  facts := [⟨"c:b", .num 5⟩, ⟨"c:t", .num 5⟩] }] }

/-- C5 override template. -/
def ovrC5 : IncomeSankeyTemplate :=
  { nodes :=
      [ { id := "S", order := 100, conceptTags := [.str "c:s"] },
        { id := "B", order := 101, conceptTags := [.str "c:b"] },
        { id := "T", order := 102, conceptTags := [.str "c:t"] } ],
    links := [ { source := "S", target := "T", order := 100, type := some "B" } ] }

/-- C6 data: a single period (so no prior period exists) and a node marked
`usePriorPeriod` whose concept has a current-period fact of 7. -/
def cfrC6 : CompanyFactsResponse :=
  { concepts := [],
    periods := [{ id := "p", end_date := 0, facts := [⟨"c:n", .num 7⟩] }] }

/-- C6 override template. -/
def ovrC6 : IncomeSankeyTemplate :=
  { nodes := [ { id := "N", order := 100, conceptTags := [.str "c:n"],
                 usePriorPeriod := some true } ],
    links := [] }

/-- C7 data: a pool holding tag `a` with value 5 and nothing else. -/
def poolC7 : Pool := buildPool [⟨"a", .num 5⟩]

/-- An empty template (enough context for direct `getNodeValue` calls). -/
def tmplEmpty : IncomeSankeyTemplate := { nodes := [], links := [] }

/-- C7 node: tag `a` is present in the pool, tag `b` is missing. -/
def nodeC7 : IncomeSankeyNode :=
  { id := "n", order := 1, conceptTags := [.str "a", .str "b"] }

/-- C8 data: a pool holding tag `t` with value 5. -/
def poolC8 : Pool := buildPool [⟨"t", .num 5⟩]

/-- C8 node: one object-form contribution with the `action` field absent. -/
def nodeC8 : IncomeSankeyNode :=
  { id := "n", order := 1, conceptTags := [.obj "t" none] }

/-- C10 data: the fact for `c:n` does not parse (`NaN`); the fact for `c:m`
is fine. -/
def cfrC10 : CompanyFactsResponse :=
  { concepts := [],
    periods := [{ id := "p", end_date := 0,
                  facts := [⟨"c:n", .nan⟩, ⟨"c:m", .num 3⟩] }] }

/-- C10 override template. -/
def ovrC10 : IncomeSankeyTemplate :=
  { nodes :=
      [ { id := "N", order := 100, conceptTags := [.str "c:n"] },
        { id := "M", order := 101, conceptTags := [.str "c:m"] } ],
    links := [] }

/-- The C10 node whose only contribution is the unparsable fact's tag. -/
def nodeC10 : IncomeSankeyNode :=
  { id := "N", order := 100, conceptTags := [.str "c:n"] }

/-- C1 witness data: a reported single-tag node with a nonnegative value and
two outgoing links, where conservation does hold. -/
def cfrW : CompanyFactsResponse :=
  { concepts := [],
    periods := [{ id := "p", end_date := 0,
                  facts := [⟨"w:src", .num 10⟩, ⟨"w:t1", .num 4⟩, ⟨"w:t2", .num 100⟩] }] }

/-- C1 witness override template. -/
def ovrW : IncomeSankeyTemplate :=
  { nodes :=
      [ { id := "src2", order := 100, conceptTags := [.str "w:src"] },
        { id := "u1", order := 101, conceptTags := [.str "w:t1"] },
        { id := "u2", order := 102, conceptTags := [.str "w:t2"] } ],
    links :=
      [ { source := "src2", target := "u1", order := 100 },
        { source := "src2", target := "u2", order := 101 } ] }

/-- C1 witness merged template. -/
def tmplW : IncomeSankeyTemplate :=
  mergeIncomeSankeyTemplates defaultIncomeSankeyTemplate (some ovrW)

/-- C1 witness source node record. -/
def nodeW : IncomeSankeyNode :=
  { id := "src2", order := 100, conceptTags := [.str "w:src"] }

/-- The C1 witness period. -/
def periodW : FactPeriod :=
  { id := "p", end_date := 0,
    facts := [⟨"w:src", .num 10⟩, ⟨"w:t1", .num 4⟩, ⟨"w:t2", .num 100⟩] }

/-- The graph the C1 witness scenario compiles to. -/
def gW : SankeyGraph :=
  { nodes := [⟨"src2", "src2\n10", none, 10, "10"⟩,
              ⟨"u1", "u1\n4", none, 4, "4"⟩,
              ⟨"u2", "u2\n100", none, 100, "100"⟩],
    links := [⟨"src2", "u1", 4, "black", none⟩,
              ⟨"src2", "u2", 6, "black", none⟩] }

/-- C3: the pool state after the first link (A→B) has been processed. -/
def stateAfterC3ab : ApportionState := (processLink tmplC3 fNC3 stC3 linkC3ab).1

/-- The C3 node record for A. -/
def nodeC3a : IncomeSankeyNode := { id := "A", order := 100, conceptTags := [.str "c:a"] }

/-- The C3 node record for B. -/
def nodeC3b : IncomeSankeyNode := { id := "B", order := 101, conceptTags := [.str "c:b"] }

/-- The link record the C2 scenario emits. -/
def outC2 : SankeyLink :=
  { source := "S", target := "T", value := 70, color := "black", type := some "B" }

/-! ## Theorems -/

set_option maxRecDepth 16000

/-- C7: the claim says a concept tag missing from the pool contributes exactly
0 while the other contributions are preserved.  In the source,
`acc + values[tag] || 0` parses as `(acc + values[tag]) || 0`, so a missing
tag turns the accumulator into `NaN` and the `|| 0` resets the *whole running
sum* to 0.  With tag `a` worth 5 and tag `b` absent, the node `[a, b]`
resolves to 0 although its `a` contribution alone resolves to 5 — the claim
describes the evident intent (the guard was meant as `values[tag] || 0`), so
this is recorded as a code bug. -/
theorem C7_missing_tag_resets_accumulator :
    poolC7 "a" = .num 5 ∧ poolC7 "b" = .nan ∧
    getNodeValue tmplEmpty (some nodeC7) none poolC7 none = 0 ∧
    getNodeValue tmplEmpty
      (some { nodeC7 with conceptTags := [.str "a"] }) none poolC7 none = 5 := by
  decide

/-- C8: the claim says an object-form contribution with the `action` field
absent is treated as "add".  In the source,
`tag.action === "add" ? values[tag.tag] : -values[tag.tag] || 0` sends an
absent action down the subtract branch: with tag `t` worth 5, the node whose
only contribution is `{ tag: "t" }` resolves to -5, not 5, contradicting the
node type's own documentation ("the value will be the sum of the values"). -/
theorem C8_default_action_subtracts :
    poolC8 "t" = .num 5 ∧
    getNodeValue tmplEmpty (some nodeC8) none poolC8 none = -5 := by
  decide

/-- C1 counterexample: node `src` is in `reported` mode (no `valueSource`) and
resolves to -5, yet its two outgoing links carry flows 5 and 10, whose sum 15
exceeds `|-5| = 5`: deducting a positive magnitude from a negative pool entry
makes its absolute value grow, so conservation fails for negative values. -/
theorem C1_counterexample :
    srcNodeC1 ∈ tmplC1.nodes ∧ srcNodeC1.valueSource = none ∧
    getNodeValue tmplC1 (some srcNodeC1) none (buildPool factsC1) none = -5 ∧
    (getIncomeSankey cfrC1 "p" (some ovrC1)).toOption.map
        (fun g => sumSourceFlows "src" g.links) = some 15 ∧
    ¬ ((15 : ℤ) ≤ |(-5 : ℤ)|) := by
  decide

/-- C2 counterexample: the link `S → T` carries `type = "B"`; its source is
not `unlimited`; the emitted flow is 70 (the type node's remaining value on
*both* sides), while the claim's formula — `min` of sourceRemaining and the
*target node's own* contributions — would give `min 70 50 = 50`. -/
theorem C2_counterexample :
    (getIncomeSankey cfrC2 "p" (some ovrC2)).toOption.map
        (fun g => g.links.map (fun l => l.value)) = some [70] ∧
    (sourceNodeOf fNC2 linkC2).bind (fun n => n.valueSource) ≠ some .unlimited ∧
    min (sourceRemainingOf tmplC2 fNC2 stC2 linkC2)
        (ownTargetRemainingOf fNC2 stC2 linkC2) = 50 ∧
    (70 : ℤ) ≠ 50 := by
  decide

/-- C3 counterexample: after link `A → B` is processed, tag `c:a` has been
deducted to 0 in the source-side pool but still reads 10 in the target-side
pool, and the later link `C → D` — whose *target* basis is `c:a` — draws
`min 7 10 = 7`, not the 0 a single shared pool would give: deductions made on
behalf of sources are invisible to later target-basis reads. -/
theorem C3_counterexample :
    stateAfterC3ab.src "c:a" = .num 0 ∧
    stateAfterC3ab.tgt "c:a" = .num 10 ∧
    (getIncomeSankey cfrC3 "p" (some ovrC3)).toOption.map
        (fun g => g.links.map (fun l => (l.source, l.value))) =
      some [("A", 10), ("C", 7)] := by
  decide

/-- C4 counterexample: node `X` initially resolves to 10 (> 0), so the claim
says the `positive`-on-`X` condition of link `P → Q` must include it; but the
code re-resolves `X` from the live source pool, which the earlier link
`X → Y` drained to 0, so `P → Q` is dropped: the output holds only `X → Y`. -/
theorem C4_counterexample :
    getNodeValue tmplC4 (some { id := "X", order := 100, conceptTags := [.str "c:x"] })
        none (buildPool (cfrC4.periods.headI).facts) none = 10 ∧
    conditionValueOf tmplC4 fNC4 stC4 linkC4pq = 0 ∧
    (getIncomeSankey cfrC4 "p" (some ovrC4)).toOption.map
        (fun g => g.links.map (fun l => (l.source, l.target))) =
      some [("X", "Y")] := by
  decide

/-- C5 counterexample: the nominal source `S` of the typed link `S → T`
resolves to 0 and is excluded from the node list (which holds only `B` and
`T`), yet the link survives — the filter checks the `type` id `B`, not the
source id — and is emitted with flow 5. -/
theorem C5_counterexample :
    (getIncomeSankey cfrC5 "p" (some ovrC5)).toOption.map
        (fun g => (g.nodes.map (fun n => n.id),
                   g.links.map (fun l => (l.source, l.target, l.value)))) =
      some (["B", "T"], [("S", "T", 5)]) := by
  decide

/-- C6 counterexample: the dataset has a single period, so no prior period
exists; the claim says the `usePriorPeriod` node `N` then resolves to 0 (and
disappears), but the code falls back to the *current* period's pool, so `N`
resolves to its current-period value 7 and stays in the output. -/
theorem C6_counterexample :
    getPriorPeriod cfrC6.periods "p" = none ∧
    (getIncomeSankey cfrC6 "p" (some ovrC6)).toOption.map
        (fun g => g.nodes.map (fun n => (n.id, n.value))) = some [("N", 7)] ∧
    (7 : ℤ) ≠ 0 := by
  decide

/-- C2 (amended): for every processed link, the emitted flow magnitude is
`targetRemaining` when the source node's mode is `unlimited` and
`min sourceRemaining targetRemaining` otherwise, where `targetRemaining` is
read through the *effective* basis (the node template named by the link's
`type` when present, else the target node's own contributions) from the live
target-side pool, and `sourceRemaining` likewise through the effective source
basis from the live source-side pool. -/
theorem C2_flow_formula_amended (tmpl : IncomeSankeyTemplate)
    (fN : List IncomeSankeyNode) (st : ApportionState) (l : IncomeSankeyLink)
    (out : SankeyLink) (h : (processLink tmpl fN st l).2 = some out) :
    out.value =
      if (sourceNodeOf fN l).bind (fun n => n.valueSource) = some .unlimited then
        targetRemainingOf tmpl fN st l
      else
        min (sourceRemainingOf tmpl fN st l) (targetRemainingOf tmpl fN st l) := by
  simp only [processLink] at h
  split at h
  · rw [Option.some_inj] at h
    subst h
    rfl
  · exact Option.noConfusion h

/-- C2 witness: the amended formula instantiated on the C2 scenario. -/
theorem C2_flow_formula_witness :
    outC2.value =
      if (sourceNodeOf fNC2 linkC2).bind (fun n => n.valueSource) = some .unlimited then
        targetRemainingOf tmplC2 fNC2 stC2 linkC2
      else
        min (sourceRemainingOf tmplC2 fNC2 stC2 linkC2)
          (targetRemainingOf tmplC2 fNC2 stC2 linkC2) :=
  C2_flow_formula_amended tmplC2 fNC2 stC2 linkC2 outC2 (by decide)

/-- C4 (amended): a link carrying a condition is excluded exactly when the
condition fails against the node value *re-resolved from the live source-side
pools at processing time* (`positive` fails iff that value is `≤ 0`,
`negative` fails iff it is `> 0`), not against the initial value pass. -/
theorem C4_condition_live_amended (tmpl : IncomeSankeyTemplate)
    (fN : List IncomeSankeyNode) (st : ApportionState) (l : IncomeSankeyLink)
    (c : LinkCondition) (hc : l.condition = some c) :
    (processLink tmpl fN st l).2 = none ↔
      (c.type = .positive ∧ conditionValueOf tmpl fN st l ≤ 0) ∨
      (c.type = .negative ∧ 0 < conditionValueOf tmpl fN st l) := by
  have hpc : passesCondition tmpl fN st l =
      (match c.type with
       | .positive => decide (0 < conditionValueOf tmpl fN st l)
       | .negative => decide (conditionValueOf tmpl fN st l ≤ 0)) := by
    simp [passesCondition, hc]
  cases hct : c.type
  case positive =>
    by_cases hcv : 0 < conditionValueOf tmpl fN st l <;>
      (simp [processLink, hpc, hct, hcv]; all_goals omega)
  case negative =>
    by_cases hcv : conditionValueOf tmpl fN st l ≤ 0 <;>
      (simp [processLink, hpc, hct, hcv]; all_goals omega)

/-- C4 witness: the amended condition semantics instantiated on the C4
scenario's second link, whose condition node has been drained to 0. -/
theorem C4_condition_live_witness :
    ((processLink tmplC4 fNC4 stC4 linkC4pq).2 = none ↔
      ((CondType.positive = .positive ∧ conditionValueOf tmplC4 fNC4 stC4 linkC4pq ≤ 0) ∨
       (CondType.positive = .negative ∧ 0 < conditionValueOf tmplC4 fNC4 stC4 linkC4pq))) :=
  C4_condition_live_amended tmplC4 fNC4 stC4 linkC4pq ⟨.positive, "X"⟩ (by decide)

/-- C3 (amended): each period has *two* live pools, one serving source-basis
reads and one serving target-basis reads.  A current-period link whose source
exists, is not `unlimited`, and is not prior-marked, and whose target exists
and is not prior-marked, mutates exactly the source-side pool through its
source basis and the target-side pool through its target basis; deductions
recorded on behalf of sources are therefore visible only to later
source-basis reads, and likewise for targets. -/
theorem C3_split_pools_amended (tmpl : IncomeSankeyTemplate)
    (fN : List IncomeSankeyNode) (st : ApportionState) (l : IncomeSankeyLink)
    (sn tn : IncomeSankeyNode)
    (hsn : sourceNodeOf fN l = some sn)
    (hmode : sn.valueSource ≠ some .unlimited)
    (hsp : sn.usePriorPeriod ≠ some true)
    (htn : targetNodeOf fN l = some tn)
    (htp : tn.usePriorPeriod ≠ some true)
    (hpass : passesCondition tmpl fN st l = true)
    (hv : flowValueOf tmpl fN st l ≠ 0) :
    (processLink tmpl fN st l).1.src =
        adjustConceptValues (sourceBasisOf tmpl fN l) (flowValueOf tmpl fN st l) st.src ∧
    (processLink tmpl fN st l).1.tgt =
        adjustConceptValues (targetBasisOf tmpl fN l) (flowValueOf tmpl fN st l) st.tgt ∧
    (processLink tmpl fN st l).1.priorSrc = st.priorSrc ∧
    (processLink tmpl fN st l).1.priorTgt = st.priorTgt := by
  cases hps : st.priorSrc <;> cases hpt : st.priorTgt <;>
    simp [processLink, hpass, stepState, hv, adjustSourceState, adjustTargetState,
      hsn, htn, hmode, hsp, htp, hps, hpt]

/-- C3 witness: the split-pool behaviour instantiated on the C3 scenario's
first link. -/
theorem C3_split_pools_witness :
    (processLink tmplC3 fNC3 stC3 linkC3ab).1.src =
        adjustConceptValues (sourceBasisOf tmplC3 fNC3 linkC3ab)
          (flowValueOf tmplC3 fNC3 stC3 linkC3ab) stC3.src ∧
    (processLink tmplC3 fNC3 stC3 linkC3ab).1.tgt =
        adjustConceptValues (targetBasisOf tmplC3 fNC3 linkC3ab)
          (flowValueOf tmplC3 fNC3 stC3 linkC3ab) stC3.tgt ∧
    (processLink tmplC3 fNC3 stC3 linkC3ab).1.priorSrc = stC3.priorSrc ∧
    (processLink tmplC3 fNC3 stC3 linkC3ab).1.priorTgt = stC3.priorTgt :=
  C3_split_pools_amended tmplC3 fNC3 stC3 linkC3ab nodeC3a nodeC3b
    (by decide) (by decide) (by decide) (by decide) (by decide) (by decide) (by decide)

/-- C5 (amended): a link survives the link filter exactly when a surviving
node matches its target id and a surviving node matches — not always its
source id — the id selected by the JS truthiness test on `type`: the `type`
id when `type` is a non-empty string, else the source id.  A typed link whose
nominal source was filtered out therefore survives whenever its type id did. -/
theorem C5_link_filter_amended (tmpl : IncomeSankeyTemplate)
    (nodes : List SankeyNode) (l : IncomeSankeyLink) :
    l ∈ filteredLinksOf tmpl nodes ↔
      l ∈ tmpl.links ∧
      (match l.type with
       | some ty =>
         if strTruthy ty then ∃ n ∈ nodes, n.id = ty
         else ∃ n ∈ nodes, n.id = l.source
       | none => ∃ n ∈ nodes, n.id = l.source) ∧
      (∃ n ∈ nodes, n.id = l.target) := by
  cases hty : l.type with
  | none =>
    simp [filteredLinksOf, List.mem_filter, hty, List.any_eq_true, beq_iff_eq,
      Bool.and_eq_true, and_assoc]
  | some ty =>
    by_cases hs : strTruthy ty <;>
      simp [filteredLinksOf, List.mem_filter, hty, hs, List.any_eq_true, beq_iff_eq,
        Bool.and_eq_true, and_assoc]

/-- C6 (amended): when the dataset holds no period preceding the requested
one, compilation still succeeds, and every node — in particular one marked
`usePriorPeriod` — resolves from the *current* period's pool (so it
contributes its current-period value, which is 0 only when its concepts are
absent from the current period). -/
theorem C6_no_prior_amended (cfr : CompanyFactsResponse) (periodId : String)
    (ovr : Option IncomeSankeyTemplate) (period : FactPeriod)
    (hfind : cfr.periods.find? (fun p => p.id == periodId) = some period)
    (hprior : getPriorPeriod cfr.periods periodId = none) :
    (getIncomeSankey cfr periodId ovr).isOk = true ∧
    ∀ n : IncomeSankeyNode,
      getNodeValue (mergeIncomeSankeyTemplates defaultIncomeSankeyTemplate ovr)
          (some n) none (buildPool period.facts)
          ((getPriorPeriod cfr.periods periodId).map (fun p => buildPool p.facts)) =
        conceptReduce n.conceptTags (buildPool period.facts) := by
  constructor
  · simp [getIncomeSankey, hfind, Except.isOk, Except.toBool]
  · intro n
    rw [hprior]
    simp [getNodeValue, getNodeValueCore]

/-! ### Keyed-map lemmas for the template merger -/

theorem lookupEntry_setEntry_self {α : Type} (m : List (String × α)) (k : String) (v : α) :
    lookupEntry (setEntry m k v) k = some v := by
  induction m with
  | nil => simp [setEntry, lookupEntry]
  | cons e rest ih =>
    by_cases h : e.1 = k
    · simp [setEntry, h, lookupEntry]
    · simp [setEntry, h, lookupEntry, ih]

theorem lookupEntry_setEntry_ne {α : Type} (m : List (String × α)) (k k' : String) (v : α)
    (h : k' ≠ k) : lookupEntry (setEntry m k v) k' = lookupEntry m k' := by
  induction m with
  | nil => simp [setEntry, lookupEntry, Ne.symm h]
  | cons e rest ih =>
    by_cases he : e.1 = k
    · simp [setEntry, he, lookupEntry, Ne.symm h]
    · simp [setEntry, he, lookupEntry, ih]

theorem keys_setEntry_mem {α : Type} (m : List (String × α)) (k : String) (v : α)
    (h : k ∈ m.map Prod.fst) : (setEntry m k v).map Prod.fst = m.map Prod.fst := by
  induction m with
  | nil => simp at h
  | cons e rest ih =>
    by_cases he : e.1 = k
    · simp [setEntry, he]
    · have hr : k ∈ rest.map Prod.fst := by
        rw [List.map_cons] at h
        rcases List.mem_cons.mp h with h1 | h1
        · exact absurd h1.symm he
        · exact h1
      simp [setEntry, he, ih hr]

theorem setEntry_of_not_mem {α : Type} (m : List (String × α)) (k : String) (v : α)
    (h : k ∉ m.map Prod.fst) : setEntry m k v = m ++ [(k, v)] := by
  induction m with
  | nil => simp [setEntry]
  | cons e rest ih =>
    have he : e.1 ≠ k := fun hk => h (by simp [← hk])
    have hr : k ∉ rest.map Prod.fst := fun hk => h (by simp [hk])
    simp [setEntry, he, ih hr]

theorem nodupKeys_setEntry {α : Type} (m : List (String × α)) (k : String) (v : α)
    (h : (m.map Prod.fst).Nodup) : ((setEntry m k v).map Prod.fst).Nodup := by
  by_cases hk : k ∈ m.map Prod.fst
  · rw [keys_setEntry_mem m k v hk]
    exact h
  · rw [setEntry_of_not_mem m k v hk, List.map_append]
    refine List.Nodup.append h (List.nodup_singleton k) ?_
    intro a ha hb
    simp at hb
    subst hb
    exact hk ha

theorem lookupEntry_isSome_iff {α : Type} (m : List (String × α)) (k : String) :
    (lookupEntry m k).isSome = true ↔ k ∈ m.map Prod.fst := by
  induction m with
  | nil => simp [lookupEntry]
  | cons e rest ih =>
    rw [List.map_cons]
    by_cases he : e.1 = k
    · simp [lookupEntry, he]
    · have hne : ¬ k = e.1 := fun h => he h.symm
      simp only [lookupEntry, if_neg he, List.mem_cons, hne, false_or]
      exact ih

theorem lookupEntry_eq_of_mem {α : Type} (m : List (String × α)) (k : String) (v : α)
    (hnd : (m.map Prod.fst).Nodup) (hm : (k, v) ∈ m) : lookupEntry m k = some v := by
  induction m with
  | nil => simp at hm
  | cons e rest ih =>
    rw [List.map_cons] at hnd
    have hnd2 := List.nodup_cons.mp hnd
    rcases List.mem_cons.mp hm with h | h
    · rw [← h]
      simp [lookupEntry]
    · have he : e.1 ≠ k := by
        intro hek
        exact hnd2.1 (hek ▸ List.mem_map.mpr ⟨(k, v), h, rfl⟩)
      simp only [lookupEntry, if_neg he]
      exact ih hnd2.2 h

theorem map_update_id {α : Type} (m : List (String × α)) (k : String) (w : String × α)
    (h : k ∉ m.map Prod.fst) :
    m.map (fun e => if e.1 = k then w else e) = m := by
  induction m with
  | nil => rfl
  | cons e rest ih =>
    have he : e.1 ≠ k := fun hk => h (by simp [← hk])
    have hr : k ∉ rest.map Prod.fst := fun hk => h (by simp [hk])
    simp [he, ih hr]

theorem setEntry_eq_map_update {α : Type} (m : List (String × α)) (k : String) (v : α)
    (hnd : (m.map Prod.fst).Nodup) (hk : k ∈ m.map Prod.fst) :
    setEntry m k v = m.map (fun e => if e.1 = k then (k, v) else e) := by
  induction m with
  | nil => simp at hk
  | cons e rest ih =>
    rw [List.map_cons] at hnd hk
    have hnd2 := List.nodup_cons.mp hnd
    by_cases he : e.1 = k
    · have hkr : k ∉ rest.map Prod.fst := he ▸ hnd2.1
      simp [setEntry, he, map_update_id rest k _ hkr]
    · have hkrest : k ∈ rest.map Prod.fst := by
        rcases List.mem_cons.mp hk with h1 | h1
        · exact absurd h1.symm he
        · exact h1
      simp [setEntry, he, ih hnd2.2 hkrest]

theorem keys_map_update {α : Type} (m : List (String × α)) (k : String) (v : α) :
    (m.map (fun e => if e.1 = k then (k, v) else e)).map Prod.fst = m.map Prod.fst := by
  induction m with
  | nil => rfl
  | cons e rest ih =>
    by_cases he : e.1 = k <;> simp [he, ih]

theorem mem_keys_setEntry {α : Type} (m : List (String × α)) (k k' : String) (v : α)
    (h : k ∈ m.map Prod.fst) : k ∈ (setEntry m k' v).map Prod.fst := by
  by_cases hk : k' ∈ m.map Prod.fst
  · rw [keys_setEntry_mem m k' v hk]
    exact h
  · rw [setEntry_of_not_mem m k' v hk, List.map_append]
    exact List.mem_append_left _ h

theorem mem_keys_setEntry_self {α : Type} (m : List (String × α)) (k : String) (v : α) :
    k ∈ (setEntry m k v).map Prod.fst := by
  rw [← lookupEntry_isSome_iff, lookupEntry_setEntry_self]
  rfl

/-! The overlay fold. -/

theorem overlayAll_cons {α : Type} (key : α → String) (mrg : α → α → α)
    (m : List (String × α)) (o : α) (os : List α) :
    overlayAll key mrg m (o :: os) = overlayAll key mrg (overlayStep key mrg m o) os := rfl

theorem lookupEntry_overlayStep_ne {α : Type} (key : α → String) (mrg : α → α → α)
    (m : List (String × α)) (o : α) (k : String) (h : key o ≠ k) :
    lookupEntry (overlayStep key mrg m o) k = lookupEntry m k := by
  unfold overlayStep
  cases hlo : lookupEntry m (key o) <;>
    exact lookupEntry_setEntry_ne m (key o) k _ (Ne.symm h)

theorem lookupEntry_overlayAll_some {α : Type} (key : α → String) (mrg : α → α → α)
    (os : List α) (m : List (String × α)) (k : String) (v : α)
    (hm : lookupEntry m k = some v) :
    lookupEntry (overlayAll key mrg m os) k =
      some (List.foldl mrg v (os.filter (fun o => key o = k))) := by
  induction os generalizing m v with
  | nil => simpa [overlayAll] using hm
  | cons o os ih =>
    rw [overlayAll_cons]
    by_cases hko : key o = k
    · have hstep : overlayStep key mrg m o = setEntry m k (mrg v o) := by
        simp [overlayStep, hko, hm]
      rw [hstep, ih (setEntry m k (mrg v o)) (mrg v o) (lookupEntry_setEntry_self m k _)]
      simp [hko]
    · have hstep := lookupEntry_overlayStep_ne key mrg m o k hko
      rw [ih (overlayStep key mrg m o) v (hstep.trans hm)]
      simp [hko]

theorem lookupEntry_overlayAll_none {α : Type} (key : α → String) (mrg : α → α → α)
    (os : List α) (m : List (String × α)) (k : String)
    (hm : lookupEntry m k = none) (hf : os.filter (fun o => key o = k) = []) :
    lookupEntry (overlayAll key mrg m os) k = none := by
  induction os generalizing m with
  | nil => simpa [overlayAll] using hm
  | cons o os ih =>
    rw [overlayAll_cons]
    by_cases hko : key o = k
    · simp [List.filter_cons, hko] at hf
    · have hstep := lookupEntry_overlayStep_ne key mrg m o k hko
      refine ih (overlayStep key mrg m o) (hstep.trans hm) ?_
      simpa [List.filter_cons, hko] using hf

theorem lookupEntry_overlayAll_new {α : Type} (key : α → String) (mrg : α → α → α)
    (os : List α) (m : List (String × α)) (k : String) (o₀ : α) (fs : List α)
    (hm : lookupEntry m k = none) (hf : os.filter (fun o => key o = k) = o₀ :: fs) :
    lookupEntry (overlayAll key mrg m os) k = some (List.foldl mrg o₀ fs) := by
  induction os generalizing m with
  | nil => simp at hf
  | cons o os ih =>
    rw [overlayAll_cons]
    by_cases hko : key o = k
    · have hstep : overlayStep key mrg m o = setEntry m k o := by
        simp [overlayStep, hko, hm]
      have hoo : o = o₀ ∧ os.filter (fun o => key o = k) = fs := by
        have := hf
        simp [List.filter_cons, hko] at this
        exact this
      rw [hstep, ← hoo.2,
        lookupEntry_overlayAll_some key mrg os (setEntry m k o) k o
          (lookupEntry_setEntry_self m k o), hoo.1]
    · have hstep := lookupEntry_overlayStep_ne key mrg m o k hko
      refine ih (overlayStep key mrg m o) (hstep.trans hm) ?_
      simpa [List.filter_cons, hko] using hf

theorem mem_keys_overlayAll_of_mem {α : Type} (key : α → String) (mrg : α → α → α)
    (os : List α) (m : List (String × α)) (k : String)
    (h : k ∈ m.map Prod.fst) : k ∈ (overlayAll key mrg m os).map Prod.fst := by
  induction os generalizing m with
  | nil => exact h
  | cons o os ih =>
    rw [overlayAll_cons]
    refine ih (overlayStep key mrg m o) ?_
    unfold overlayStep
    cases hlo : lookupEntry m (key o) <;> exact mem_keys_setEntry m k (key o) _ h

theorem mem_keys_overlayAll {α : Type} (key : α → String) (mrg : α → α → α)
    (os : List α) (m : List (String × α)) (o : α) (ho : o ∈ os) :
    key o ∈ (overlayAll key mrg m os).map Prod.fst := by
  induction os generalizing m with
  | nil => simp at ho
  | cons o' os ih =>
    rw [overlayAll_cons]
    rcases List.mem_cons.mp ho with h | h
    · subst h
      refine mem_keys_overlayAll_of_mem key mrg os _ (key o) ?_
      unfold overlayStep
      cases hlo : lookupEntry m (key o) <;> exact mem_keys_setEntry_self m (key o) _
    · exact ih (overlayStep key mrg m o') h

theorem nodupKeys_overlayAll {α : Type} (key : α → String) (mrg : α → α → α)
    (os : List α) (m : List (String × α))
    (h : (m.map Prod.fst).Nodup) : ((overlayAll key mrg m os).map Prod.fst).Nodup := by
  induction os generalizing m with
  | nil => exact h
  | cons o os ih =>
    rw [overlayAll_cons]
    refine ih (overlayStep key mrg m o) ?_
    unfold overlayStep
    cases hlo : lookupEntry m (key o) <;> exact nodupKeys_setEntry m (key o) _ h

theorem mem_setEntry {α : Type} (m : List (String × α)) (k : String) (v : α)
    (e : String × α) (he : e ∈ setEntry m k v) : e ∈ m ∨ e = (k, v) := by
  induction m with
  | nil => simpa [setEntry] using he
  | cons e' rest ih =>
    by_cases h : e'.1 = k
    · rcases List.mem_cons.mp (by simpa [setEntry, h] using he) with h1 | h1
      · exact Or.inr h1
      · exact Or.inl (List.mem_cons_of_mem e' h1)
    · rcases List.mem_cons.mp (by simpa [setEntry, h] using he) with h1 | h1
      · exact Or.inl (h1 ▸ List.mem_cons_self e' rest)
      · rcases ih h1 with h2 | h2
        · exact Or.inl (List.mem_cons_of_mem e' h2)
        · exact Or.inr h2

theorem keyInv_overlayAll {α : Type} (key : α → String) (mrg : α → α → α)
    (hkey : ∀ a b, key (mrg a b) = key b) (os : List α) (m : List (String × α))
    (h : ∀ e ∈ m, key e.2 = e.1) : ∀ e ∈ overlayAll key mrg m os, key e.2 = e.1 := by
  induction os generalizing m with
  | nil => exact h
  | cons o os ih =>
    rw [overlayAll_cons]
    refine ih (overlayStep key mrg m o) ?_
    intro e he
    unfold overlayStep at he
    cases hlo : lookupEntry m (key o) with
    | some w =>
      rw [hlo] at he
      rcases mem_setEntry m (key o) (mrg w o) e he with h1 | h1
      · exact h e h1
      · rw [h1]
        exact hkey w o
    | none =>
      rw [hlo] at he
      rcases mem_setEntry m (key o) o e he with h1 | h1
      · exact h e h1
      · rw [h1]

theorem foldl_setEntry_fresh {α : Type} (key : α → String) (xs : List α)
    (m : List (String × α)) (hnd : (xs.map key).Nodup)
    (hfresh : ∀ x ∈ xs, key x ∉ m.map Prod.fst) :
    xs.foldl (fun m x => setEntry m (key x) x) m = m ++ xs.map (fun x => (key x, x)) := by
  induction xs generalizing m with
  | nil => simp
  | cons x xs ih =>
    rw [List.map_cons] at hnd
    have hnd2 := List.nodup_cons.mp hnd
    rw [List.foldl_cons, setEntry_of_not_mem m (key x) x (hfresh x (List.mem_cons_self x xs))]
    rw [ih (m ++ [(key x, x)]) hnd2.2 ?_]
    · simp
    · intro y hy
      rw [List.map_append]
      intro hmem
      rcases List.mem_append.mp hmem with h1 | h1
      · exact hfresh y (List.mem_cons_of_mem x hy) h1
      · simp at h1
        exact hnd2.1 (h1 ▸ List.mem_map.mpr ⟨y, hy, rfl⟩)

theorem toEntryMap_eq_pairing {α : Type} (key : α → String) (xs : List α)
    (hnd : (xs.map key).Nodup) :
    toEntryMap key xs = xs.map (fun x => (key x, x)) := by
  simpa [toEntryMap] using foldl_setEntry_fresh key xs [] hnd (by simp)

theorem nodupKeys_toEntryMap {α : Type} (key : α → String) (xs : List α) :
    ((toEntryMap key xs).map Prod.fst).Nodup := by
  suffices h : ∀ m : List (String × α), (m.map Prod.fst).Nodup →
      ((xs.foldl (fun m x => setEntry m (key x) x) m).map Prod.fst).Nodup by
    exact h [] (by simp)
  induction xs with
  | nil => intro m hm; exact hm
  | cons x xs ih =>
    intro m hm
    rw [List.foldl_cons]
    exact ih (setEntry m (key x) x) (nodupKeys_setEntry m (key x) x hm)

theorem keyInv_toEntryMap {α : Type} (key : α → String) (xs : List α) :
    ∀ e ∈ toEntryMap key xs, key e.2 = e.1 := by
  suffices h : ∀ m : List (String × α), (∀ e ∈ m, key e.2 = e.1) →
      ∀ e ∈ xs.foldl (fun m x => setEntry m (key x) x) m, key e.2 = e.1 by
    exact h [] (by simp)
  induction xs with
  | nil => intro m hm; exact hm
  | cons x xs ih =>
    intro m hm
    rw [List.foldl_cons]
    refine ih (setEntry m (key x) x) ?_
    intro e he
    rcases mem_setEntry m (key x) x e he with h1 | h1
    · exact hm e h1
    · rw [h1]

theorem overlayAll_eq_map_of_mem {α : Type} (key : α → String) (mrg : α → α → α)
    (os : List α) (m : List (String × α))
    (hnd : (m.map Prod.fst).Nodup)
    (hmem : ∀ o ∈ os, key o ∈ m.map Prod.fst) :
    overlayAll key mrg m os =
      m.map (fun e => (e.1, List.foldl mrg e.2 (os.filter (fun o => key o = e.1)))) := by
  induction os generalizing m with
  | nil => simp [overlayAll]
  | cons o os ih =>
    have hkm := hmem o (List.mem_cons_self o os)
    obtain ⟨v, hv⟩ : ∃ v, lookupEntry m (key o) = some v :=
      Option.isSome_iff_exists.mp ((lookupEntry_isSome_iff m (key o)).mpr hkm)
    have hstep : overlayStep key mrg m o =
        m.map (fun e => if e.1 = key o then (key o, mrg v o) else e) := by
      rw [overlayStep, hv]
      exact setEntry_eq_map_update m (key o) (mrg v o) hnd hkm
    rw [overlayAll_cons, hstep]
    rw [ih (m.map (fun e => if e.1 = key o then (key o, mrg v o) else e))
      (by rw [keys_map_update]; exact hnd)
      (by intro o' ho'; rw [keys_map_update]; exact hmem o' (List.mem_cons_of_mem o ho'))]
    rw [List.map_map]
    refine List.map_congr_left ?_
    intro e hemem
    by_cases he : e.1 = key o
    · have hv2 : v = e.2 := by
        have hlk : lookupEntry m e.1 = some e.2 :=
          lookupEntry_eq_of_mem m e.1 e.2 hnd (by simpa using hemem)
        rw [he, hv] at hlk
        exact (Option.some_inj.mp hlk)
      simp only [Function.comp, he, if_pos rfl]
      simp [List.filter_cons, he, hv2]
    · simp only [Function.comp, if_neg he]
      have hko : ¬ (key o = e.1) := fun h => he h.symm
      simp [List.filter_cons, hko]

/-! Band laws for the record overlay and their absorption consequences. -/

theorem foldl_mrg_cons {α : Type} (mrg : α → α → α)
    (hassoc : ∀ a b c, mrg (mrg a b) c = mrg a (mrg b c))
    (os : List α) (x o : α) :
    List.foldl mrg (mrg x o) os = mrg x (List.foldl mrg o os) := by
  induction os generalizing x o with
  | nil => rfl
  | cons o' os ih =>
    rw [List.foldl_cons, List.foldl_cons, hassoc, ih]

theorem foldl_absorb_of_eq {α : Type} (mrg : α → α → α)
    (hassoc : ∀ a b c, mrg (mrg a b) c = mrg a (mrg b c))
    (hidem : ∀ a, mrg a a = a)
    (os : List α) (x v : α) (hv : v = List.foldl mrg x os) :
    List.foldl mrg v os = v := by
  cases os with
  | nil => rfl
  | cons o os =>
    have hx : v = mrg x (List.foldl mrg o os) := by
      rw [hv, List.foldl_cons, foldl_mrg_cons mrg hassoc]
    rw [List.foldl_cons, foldl_mrg_cons mrg hassoc, hx, hassoc, hidem]

theorem foldl_absorb_of_head {α : Type} (mrg : α → α → α)
    (hassoc : ∀ a b c, mrg (mrg a b) c = mrg a (mrg b c))
    (hidem : ∀ a, mrg a a = a)
    (os : List α) (o v : α) (hv : v = List.foldl mrg o os) :
    List.foldl mrg v (o :: os) = v := by
  rw [List.foldl_cons, foldl_mrg_cons mrg hassoc, ← hv, hidem]

/-! The idempotence of merge-then-sort. -/

theorem mergeById_sorted_idem {α : Type} (key : α → String) (mrg : α → α → α)
    (le : α → α → Prop) [DecidableRel le] [IsTotal α le] [IsTrans α le]
    (hassoc : ∀ a b c, mrg (mrg a b) c = mrg a (mrg b c))
    (hidem : ∀ a, mrg a a = a)
    (hkey : ∀ a b, key (mrg a b) = key b)
    (base ovr : List α) :
    List.insertionSort le
        (mergeById key mrg (List.insertionSort le (mergeById key mrg base ovr)) ovr) =
      List.insertionSort le (mergeById key mrg base ovr) := by
  set m1 := overlayAll key mrg (toEntryMap key base) ovr with hm1
  set M := List.insertionSort le (entryValues m1) with hM
  have hnd1 : (m1.map Prod.fst).Nodup :=
    nodupKeys_overlayAll key mrg ovr _ (nodupKeys_toEntryMap key base)
  have hki1 : ∀ e ∈ m1, key e.2 = e.1 :=
    keyInv_overlayAll key mrg hkey ovr _ (keyInv_toEntryMap key base)
  have hperm : M.Perm (entryValues m1) := List.perm_insertionSort le (entryValues m1)
  have hkeysvals : (entryValues m1).map key = m1.map Prod.fst := by
    rw [entryValues, List.map_map]
    exact List.map_congr_left (fun e he => hki1 e he)
  have hndM : (M.map key).Nodup := by
    have hpm : (M.map key).Perm (m1.map Prod.fst) := hkeysvals ▸ hperm.map key
    exact hpm.nodup_iff.mpr hnd1
  have htmM : toEntryMap key M = M.map (fun x => (key x, x)) := toEntryMap_eq_pairing key M hndM
  have hkeysM : (toEntryMap key M).map Prod.fst = M.map key := by
    rw [htmM, List.map_map]
    rfl
  have hndM2 : ((toEntryMap key M).map Prod.fst).Nodup := by
    rw [hkeysM]
    exact hndM
  have hmemM : ∀ o ∈ ovr, key o ∈ (toEntryMap key M).map Prod.fst := by
    intro o ho
    rw [hkeysM]
    have h1 : key o ∈ m1.map Prod.fst := mem_keys_overlayAll key mrg ovr _ o ho
    rw [← hkeysvals] at h1
    exact (hperm.map key).mem_iff.mpr h1
  have hVal : ∀ x ∈ M, List.foldl mrg x (ovr.filter (fun o => key o = key x)) = x := by
    intro x hx
    have hxv : x ∈ entryValues m1 := hperm.subset hx
    obtain ⟨e, hem, he2⟩ := List.mem_map.mp hxv
    have hke : e.1 = key x := by
      rw [← he2]
      exact (hki1 e hem).symm
    have hlk : lookupEntry m1 (key x) = some x := by
      have h0 : lookupEntry m1 e.1 = some e.2 :=
        lookupEntry_eq_of_mem m1 e.1 e.2 hnd1 (by simpa using hem)
      rw [hke, he2] at h0
      exact h0
    cases hbk : lookupEntry (toEntryMap key base) (key x) with
    | some v =>
      have hch := lookupEntry_overlayAll_some key mrg ovr _ (key x) v hbk
      rw [← hm1, hlk] at hch
      exact foldl_absorb_of_eq mrg hassoc hidem _ v x (Option.some_inj.mp hch)
    | none =>
      cases hf : ovr.filter (fun o => key o = key x) with
      | nil =>
        have hch := lookupEntry_overlayAll_none key mrg ovr _ (key x) hbk hf
        rw [← hm1, hlk] at hch
        exact absurd hch (by simp)
      | cons o₀ fs =>
        have hch := lookupEntry_overlayAll_new key mrg ovr _ (key x) o₀ fs hbk hf
        rw [← hm1, hlk] at hch
        exact foldl_absorb_of_head mrg hassoc hidem fs o₀ x (Option.some_inj.mp hch)
  have h2 : overlayAll key mrg (toEntryMap key M) ovr = toEntryMap key M := by
    rw [overlayAll_eq_map_of_mem key mrg ovr _ hndM2 hmemM, htmM, List.map_map]
    refine List.map_congr_left ?_
    intro x hx
    exact congrArg (fun y => (key x, y)) (hVal x hx)
  have hvals2 : entryValues (toEntryMap key M) = M := by
    rw [htmM, entryValues, List.map_map]
    exact (List.map_congr_left fun x _ => rfl).trans (List.map_id M)
  show List.insertionSort le (entryValues (overlayAll key mrg (toEntryMap key M) ovr)) = M
  rw [h2, hvals2]
  exact List.Sorted.insertionSort_eq (by rw [hM]; exact List.sorted_insertionSort le (entryValues m1))

/-! Band laws for the two record types. -/

theorem oOr_assoc {α : Type} (a b c : Option α) : oOr a (oOr b c) = oOr (oOr a b) c := by
  cases a <;> rfl

theorem oOr_idem {α : Type} (a : Option α) : oOr a a = a := by
  cases a <;> rfl

theorem mergeNodeRecords_assoc (a b c : IncomeSankeyNode) :
    mergeNodeRecords (mergeNodeRecords a b) c = mergeNodeRecords a (mergeNodeRecords b c) := by
  simp [mergeNodeRecords, oOr_assoc]

theorem mergeNodeRecords_idem (a : IncomeSankeyNode) : mergeNodeRecords a a = a := by
  simp [mergeNodeRecords, oOr_idem]

theorem mergeLinkRecords_assoc (a b c : IncomeSankeyLink) :
    mergeLinkRecords (mergeLinkRecords a b) c = mergeLinkRecords a (mergeLinkRecords b c) := by
  simp [mergeLinkRecords, oOr_assoc]

theorem mergeLinkRecords_idem (a : IncomeSankeyLink) : mergeLinkRecords a a = a := by
  simp [mergeLinkRecords, oOr_idem]

/-- C9: template merging is idempotent — merging the already-merged template
with the same override again returns the same template, node records, link
records, field values and ascending-by-order sequences included. -/
theorem C9_merge_idempotent (T O : IncomeSankeyTemplate) :
    mergeIncomeSankeyTemplates (mergeIncomeSankeyTemplates T (some O)) (some O) =
      mergeIncomeSankeyTemplates T (some O) := by
  have hn := mergeById_sorted_idem (fun n : IncomeSankeyNode => n.id) mergeNodeRecords
    nodeOrderLe mergeNodeRecords_assoc mergeNodeRecords_idem (fun _ _ => rfl)
    T.nodes O.nodes
  have hl := mergeById_sorted_idem linkKey mergeLinkRecords
    linkOrderLe mergeLinkRecords_assoc mergeLinkRecords_idem (fun _ _ => rfl)
    T.links O.links
  simp only [mergeIncomeSankeyTemplates]
  rw [IncomeSankeyTemplate.mk.injEq]
  exact ⟨hn, hl⟩

/-! ### Unique node ids in a merged template (for C10) -/

theorem nodupKeys_mergeById {α : Type} (key : α → String) (mrg : α → α → α)
    (hkey : ∀ a b, key (mrg a b) = key b) (base ovr : List α) :
    ((mergeById key mrg base ovr).map key).Nodup := by
  have hnd1 : ((overlayAll key mrg (toEntryMap key base) ovr).map Prod.fst).Nodup :=
    nodupKeys_overlayAll key mrg ovr _ (nodupKeys_toEntryMap key base)
  have hki1 : ∀ e ∈ overlayAll key mrg (toEntryMap key base) ovr, key e.2 = e.1 :=
    keyInv_overlayAll key mrg hkey ovr _ (keyInv_toEntryMap key base)
  have heq : (mergeById key mrg base ovr).map key =
      (overlayAll key mrg (toEntryMap key base) ovr).map Prod.fst := by
    rw [mergeById, entryValues, List.map_map]
    exact List.map_congr_left (fun e he => hki1 e he)
  rw [heq]
  exact hnd1

theorem merged_node_ids_nodup (T : IncomeSankeyTemplate)
    (hT : (T.nodes.map (fun n => n.id)).Nodup) (ovr : Option IncomeSankeyTemplate) :
    ((mergeIncomeSankeyTemplates T ovr).nodes.map (fun n => n.id)).Nodup := by
  cases ovr with
  | none =>
    have hp := (List.perm_insertionSort nodeOrderLe T.nodes).map (fun n => n.id)
    exact hp.nodup_iff.mpr hT
  | some O =>
    have hp := (List.perm_insertionSort nodeOrderLe
      (mergeById (fun n : IncomeSankeyNode => n.id) mergeNodeRecords T.nodes O.nodes)).map
      (fun n => n.id)
    exact hp.nodup_iff.mpr
      (nodupKeys_mergeById (fun n : IncomeSankeyNode => n.id) mergeNodeRecords
        (fun _ _ => rfl) T.nodes O.nodes)

/-- C10: a fact whose value string does not parse enters the pools as the
`NaN` sentinel, but never propagates into the output: a template node whose
only concept contribution is a plain string tag reading `NaN` from its
selected pool resolves to 0 (the final `|| 0` collapses the sentinel) and no
node record with its id appears in the output node list — exactly as if the
fact were absent. -/
theorem C10_unparsable_fact_isolated (cfr : CompanyFactsResponse) (periodId : String)
    (ovr : Option IncomeSankeyTemplate) (period : FactPeriod) (n : IncomeSankeyNode)
    (t : String) (g : SankeyGraph)
    (hfind : cfr.periods.find? (fun pe => pe.id == periodId) = some period)
    (hmem : n ∈ (mergeIncomeSankeyTemplates defaultIncomeSankeyTemplate ovr).nodes)
    (hn : n.conceptTags = [.str t])
    (hread : (match (getPriorPeriod cfr.periods periodId).map (fun pr : FactPeriod => buildPool pr.facts) with
              | some q => if n.usePriorPeriod = some true then q else buildPool period.facts
              | none => buildPool period.facts) t = .nan)
    (hok : getIncomeSankey cfr periodId ovr = .ok g) :
    getNodeValue (mergeIncomeSankeyTemplates defaultIncomeSankeyTemplate ovr) (some n) none
        (buildPool period.facts)
        ((getPriorPeriod cfr.periods periodId).map (fun pr : FactPeriod => buildPool pr.facts)) = 0 ∧
    ∀ sn ∈ g.nodes, sn.id ≠ n.id := by
  have hval : getNodeValue (mergeIncomeSankeyTemplates defaultIncomeSankeyTemplate ovr)
      (some n) none (buildPool period.facts)
      ((getPriorPeriod cfr.periods periodId).map (fun pr : FactPeriod => buildPool pr.facts)) = 0 := by
    cases hpp : (getPriorPeriod cfr.periods periodId).map (fun pr : FactPeriod => buildPool pr.facts) with
    | none =>
      rw [hpp] at hread
      have hread2 : buildPool period.facts t = JSNum.nan := hread
      simp [getNodeValue, getNodeValueCore, hn, conceptReduce, conceptReduceStep, hread2,
        jAdd, orZero, jTruthy, finNum]
    | some q =>
      rw [hpp] at hread
      have hread2 : (if n.usePriorPeriod = some true then q else buildPool period.facts) t =
          JSNum.nan := hread
      by_cases hup : n.usePriorPeriod = some true
      · rw [if_pos hup] at hread2
        simp [getNodeValue, getNodeValueCore, hn, hup, conceptReduce, conceptReduceStep,
          hread2, jAdd, orZero, jTruthy, finNum]
      · rw [if_neg hup] at hread2
        simp [getNodeValue, getNodeValueCore, hn, hup, conceptReduce, conceptReduceStep,
          hread2, jAdd, orZero, jTruthy, finNum]
  refine ⟨hval, ?_⟩
  intro sn hsn hid
  simp only [getIncomeSankey, hfind] at hok
  rw [Except.ok.injEq] at hok
  subst hok
  obtain ⟨m, hmF, hm⟩ := List.mem_map.mp hsn
  have hmid : m.id = n.id := by
    rw [← hid, ← hm]
  have hmtmpl := (List.mem_filter.mp hmF).1
  have hmpred := (List.mem_filter.mp hmF).2
  have hmn : m = n :=
    List.inj_on_of_nodup_map
      (merged_node_ids_nodup defaultIncomeSankeyTemplate (by decide) ovr)
      hmtmpl hmem hmid
  rw [hmn] at hmpred
  simp only [initStateOf, getAbsoluteNodeValue, decide_eq_true_eq] at hmpred
  rw [hval] at hmpred
  exact hmpred (by simp)

/-- C10 witness: the isolation property instantiated on the C10 scenario. -/
theorem C10_unparsable_fact_witness :
    getNodeValue (mergeIncomeSankeyTemplates defaultIncomeSankeyTemplate (some ovrC10))
        (some nodeC10) none
        (buildPool ({ id := "p", end_date := 0,
                      facts := [⟨"c:n", .nan⟩, ⟨"c:m", .num 3⟩] } : FactPeriod).facts)
        ((getPriorPeriod cfrC10.periods "p").map (fun pr : FactPeriod => buildPool pr.facts)) = 0 ∧
    ∀ sn ∈ (SankeyGraph.mk [⟨"M", "M\n3", none, 3, "3"⟩] []).nodes, sn.id ≠ nodeC10.id :=
  C10_unparsable_fact_isolated cfrC10 "p" (some ovrC10)
    { id := "p", end_date := 0, facts := [⟨"c:n", .nan⟩, ⟨"c:m", .num 3⟩] }
    nodeC10 "c:n" (SankeyGraph.mk [⟨"M", "M\n3", none, 3, "3"⟩] [])
    (by decide) (by decide) (by decide) (by decide) (by rfl)

/-! ### Conservation (C1): supporting lemmas -/

theorem flowValueOf_nonneg (tmpl : IncomeSankeyTemplate) (fN : List IncomeSankeyNode)
    (st : ApportionState) (l : IncomeSankeyLink) : 0 ≤ flowValueOf tmpl fN st l := by
  unfold flowValueOf
  split
  · exact abs_nonneg _
  · exact le_min (abs_nonneg _) (abs_nonneg _)

theorem usePT_of_not_true (n : IncomeSankeyNode) (h : n.usePriorPeriod ≠ some true) :
    usePT (some n) = false := by
  cases hu : n.usePriorPeriod with
  | none => simp [usePT, hu]
  | some b =>
    cases b with
    | true => exact absurd hu h
    | false => simp [usePT, hu]

theorem getCTV_single_src (pool : Pool) (prior : Option Pool) (t : String) (z : ℤ) (b : Bool)
    (h : pool t = .num z) (hb : b = false ∨ prior = none) :
    getConceptTagsValue [.str t] b pool prior = z := by
  rcases hb with hb | hb
  · subst hb
    cases prior <;>
      (by_cases hz : z = 0 <;>
        simp [getConceptTagsValue, conceptReduce, conceptReduceStep, h, jAdd, orZero,
          jTruthy, finNum, hz])
  · subst hb
    by_cases hz : z = 0 <;>
      simp [getConceptTagsValue, conceptReduce, conceptReduceStep, h, jAdd, orZero,
        jTruthy, finNum, hz]

theorem adjust_single (pool : Pool) (t : String) (v z : ℤ) (h : pool t = .num z) :
    adjustConceptValues [.str t] v pool t = .num (z - v) := by
  simp [adjustConceptValues, poolSet, jSubI, h]

theorem adjust_other (tags : List IncomeSankeyNodeTag) (v : ℤ) (pool : Pool) (t : String)
    (h : t ∉ tags.map tagName) : adjustConceptValues tags v pool t = pool t := by
  induction tags generalizing pool with
  | nil => rfl
  | cons tg tags ih =>
    rw [List.map_cons] at h
    have hne : t ≠ tagName tg := fun he => h (he ▸ List.mem_cons_self _ _)
    have hrest : t ∉ tags.map tagName := fun he => h (List.mem_cons_of_mem _ he)
    cases tg with
    | str tg' =>
      rw [show adjustConceptValues (.str tg' :: tags) v pool =
          adjustConceptValues tags v (poolSet pool tg' (jSubI (pool tg') v)) from rfl]
      rw [ih _ hrest]
      simp [tagName] at hne
      simp [poolSet, if_neg hne]
    | obj tg' a =>
      cases a with
      | none =>
        rw [show adjustConceptValues (.obj tg' none :: tags) v pool =
            adjustConceptValues tags v (poolSet pool tg' (jAddI (pool tg') v)) from rfl]
        rw [ih _ hrest]
        simp [tagName] at hne
        simp [poolSet, if_neg hne]
      | some act =>
        cases act with
        | add =>
          rw [show adjustConceptValues (.obj tg' (some .add) :: tags) v pool =
              adjustConceptValues tags v (poolSet pool tg' (jSubI (pool tg') v)) from rfl]
          rw [ih _ hrest]
          simp [tagName] at hne
          simp [poolSet, if_neg hne]
        | subtract =>
          rw [show adjustConceptValues (.obj tg' (some .subtract) :: tags) v pool =
              adjustConceptValues tags v (poolSet pool tg' (jAddI (pool tg') v)) from rfl]
          rw [ih _ hrest]
          simp [tagName] at hne
          simp [poolSet, if_neg hne]

theorem adjustTargetState_src (tmpl : IncomeSankeyTemplate) (fN : List IncomeSankeyNode)
    (st : ApportionState) (l : IncomeSankeyLink) (v : ℤ) :
    (adjustTargetState tmpl fN st l v).src = st.src := by
  unfold adjustTargetState
  cases targetNodeOf fN l with
  | none => rfl
  | some tn =>
    cases st.priorTgt with
    | none => rfl
    | some q => by_cases h : tn.usePriorPeriod = some true <;> simp [h]

theorem adjustSourceState_src_cases (tmpl : IncomeSankeyTemplate)
    (fN : List IncomeSankeyNode) (st : ApportionState) (l : IncomeSankeyLink) (v : ℤ) :
    (adjustSourceState tmpl fN st l v).src = st.src ∨
    ((adjustSourceState tmpl fN st l v).src =
        adjustConceptValues (sourceBasisOf tmpl fN l) v st.src ∧
      ∃ sn, sourceNodeOf fN l = some sn ∧ sn.valueSource ≠ some .unlimited ∧
        (usePT (sourceNodeOf fN l) = false ∨ st.priorSrc = none)) := by
  unfold adjustSourceState
  cases hsn : sourceNodeOf fN l with
  | none => exact Or.inl rfl
  | some sn =>
    dsimp only
    by_cases hmode : sn.valueSource = some ValueSource.unlimited
    · rw [if_pos hmode]
      exact Or.inl rfl
    · rw [if_neg hmode]
      cases hps : st.priorSrc with
      | none =>
        exact Or.inr ⟨rfl, sn, rfl, hmode, Or.inr rfl⟩
      | some q =>
        dsimp only
        by_cases hup : sn.usePriorPeriod = some true
        · rw [if_pos hup]
          exact Or.inl rfl
        · rw [if_neg hup]
          exact Or.inr ⟨rfl, sn, rfl, hmode, Or.inl (usePT_of_not_true sn hup)⟩

theorem sumSourceFlows_cons (s : String) (sl : SankeyLink) (ls : List SankeyLink) :
    sumSourceFlows s (sl :: ls) =
      (if sl.source = s then sl.value else 0) + sumSourceFlows s ls := by
  simp [sumSourceFlows]

/-- One apportionment step keeps the watched tag's source-pool entry a
nonnegative number bounded by its previous value, and any flow the step emits
on the watched node's behalf is bounded by the decrease. -/
theorem processLink_src_tag_step (tmpl : IncomeSankeyTemplate) (fN : List IncomeSankeyNode)
    (s : IncomeSankeyNode) (t : String) (st : ApportionState) (l : IncomeSankeyLink) (p : ℤ)
    (hfind : fN.find? (fun n => n.id == s.id) = some s)
    (hmode : s.valueSource ≠ some .unlimited)
    (hsup : s.usePriorPeriod ≠ some true)
    (hsrc : l.source = s.id → sourceBasisOf tmpl fN l = [.str t])
    (hbasis : t ∈ (sourceBasisOf tmpl fN l).map tagName → sourceBasisOf tmpl fN l = [.str t])
    (hp : st.src t = .num p) (hp0 : 0 ≤ p) :
    ∃ q : ℤ, (processLink tmpl fN st l).1.src t = .num q ∧ 0 ≤ q ∧ q ≤ p ∧
      (match (processLink tmpl fN st l).2 with
       | some sl => (if sl.source = s.id then sl.value else 0) ≤ p - q
       | none => (0:ℤ) ≤ p - q) := by
  by_cases hpass : passesCondition tmpl fN st l
  · have hPL : processLink tmpl fN st l =
        (stepState tmpl fN st l (flowValueOf tmpl fN st l),
         some { source := l.source, target := l.target,
                value := flowValueOf tmpl fN st l, color := "black", type := l.type }) := by
      simp [processLink, hpass]
    rw [hPL]
    set v := flowValueOf tmpl fN st l with hvdef
    have hv0 : 0 ≤ v := flowValueOf_nonneg tmpl fN st l
    by_cases hvz : v = 0
    · refine ⟨p, ?_, hp0, le_refl p, ?_⟩
      · show (stepState tmpl fN st l v).src t = .num p
        rw [stepState, if_pos hvz]
        exact hp
      · show (if l.source = s.id then v else 0) ≤ p - p
        split <;> omega
    · have hstep : (stepState tmpl fN st l v).src =
          (adjustSourceState tmpl fN st l v).src := by
        rw [stepState, if_neg hvz]
        exact adjustTargetState_src tmpl fN _ l v
      by_cases hls : l.source = s.id
      · have hbasisS := hsrc hls
        have hsn : sourceNodeOf fN l = some s := by
          rw [sourceNodeOf, hls]
          exact hfind
        have huse : usePT (sourceNodeOf fN l) = false := by
          rw [hsn]
          exact usePT_of_not_true s hsup
        have hsrcRem : sourceRemainingOf tmpl fN st l = p := by
          unfold sourceRemainingOf
          rw [hbasisS, huse, getCTV_single_src st.src st.priorSrc t p false hp (Or.inl rfl)]
          exact abs_of_nonneg hp0
        have hvle : v ≤ p := by
          rw [hvdef]
          unfold flowValueOf
          rw [hsn]
          simp only [Option.some_bind]
          rw [if_neg hmode]
          exact hsrcRem ▸ min_le_left _ _
        have hsrcstate : (adjustSourceState tmpl fN st l v).src =
            adjustConceptValues [.str t] v st.src := by
          rw [← hbasisS]
          simp only [adjustSourceState, hsn, if_neg hmode]
          cases hps : st.priorSrc with
          | none => rfl
          | some q => simp [hsup]
        refine ⟨p - v, ?_, by omega, by omega, ?_⟩
        · show (stepState tmpl fN st l v).src t = .num (p - v)
          rw [hstep, hsrcstate]
          exact adjust_single st.src t v p hp
        · show (if l.source = s.id then v else 0) ≤ p - (p - v)
          rw [if_pos hls]
          omega
      · rcases adjustSourceState_src_cases tmpl fN st l v with hcase | ⟨heq, sn, hsn, hmode2, hcur⟩
        · refine ⟨p, ?_, hp0, le_refl p, ?_⟩
          · show (stepState tmpl fN st l v).src t = .num p
            rw [hstep, hcase]
            exact hp
          · show (if l.source = s.id then v else 0) ≤ p - p
            rw [if_neg hls]
            omega
        · by_cases hmem : t ∈ (sourceBasisOf tmpl fN l).map tagName
          · have hbasisS := hbasis hmem
            have hsr : sourceRemainingOf tmpl fN st l = p := by
              unfold sourceRemainingOf
              have hb : usePT (sourceNodeOf fN l) = false ∨ st.priorSrc = none := hcur
              rw [hbasisS, getCTV_single_src st.src st.priorSrc t p
                (usePT (sourceNodeOf fN l)) hp hb]
              exact abs_of_nonneg hp0
            have hvle : v ≤ p := by
              rw [hvdef]
              unfold flowValueOf
              rw [hsn]
              simp only [Option.some_bind]
              rw [if_neg hmode2]
              exact hsr ▸ min_le_left _ _
            refine ⟨p - v, ?_, by omega, by omega, ?_⟩
            · show (stepState tmpl fN st l v).src t = .num (p - v)
              rw [hstep, heq, hbasisS]
              exact adjust_single st.src t v p hp
            · show (if l.source = s.id then v else 0) ≤ p - (p - v)
              rw [if_neg hls]
              omega
          · refine ⟨p, ?_, hp0, le_refl p, ?_⟩
            · show (stepState tmpl fN st l v).src t = .num p
              rw [hstep, heq, adjust_other _ v st.src t hmem]
              exact hp
            · show (if l.source = s.id then v else 0) ≤ p - p
              rw [if_neg hls]
              omega
  · have hPL : processLink tmpl fN st l = (st, none) := by
      simp [processLink, hpass]
    rw [hPL]
    exact ⟨p, hp, hp0, le_refl p, by omega⟩

/-- The apportionment fold conserves a single-add-tag source basis: with every
processed link's basis either disjoint from the watched tag or exactly the
watched single tag, the watched node's emitted flows sum to at most the tag's
initial nonnegative pool value. -/
theorem runLinks_src_conservation (tmpl : IncomeSankeyTemplate)
    (fN : List IncomeSankeyNode) (s : IncomeSankeyNode) (t : String)
    (hfind : fN.find? (fun n => n.id == s.id) = some s)
    (hmode : s.valueSource ≠ some .unlimited)
    (hsup : s.usePriorPeriod ≠ some true)
    (ls : List IncomeSankeyLink) :
    ∀ (st : ApportionState) (p : ℤ),
      (∀ l ∈ ls, l.source = s.id → sourceBasisOf tmpl fN l = [.str t]) →
      (∀ l ∈ ls, t ∈ (sourceBasisOf tmpl fN l).map tagName →
        sourceBasisOf tmpl fN l = [.str t]) →
      st.src t = .num p → 0 ≤ p →
      sumSourceFlows s.id (runLinks tmpl fN st ls) ≤ p := by
  induction ls with
  | nil =>
    intro st p _ _ _ hp0
    simpa [runLinks, sumSourceFlows] using hp0
  | cons l ls ih =>
    intro st p hsrc hbasis hp hp0
    obtain ⟨q, hq, hq0, hqp, hcontrib⟩ :=
      processLink_src_tag_step tmpl fN s t st l p hfind hmode hsup
        (hsrc l (List.mem_cons_self l ls)) (hbasis l (List.mem_cons_self l ls)) hp hp0
    have hsrc2 : ∀ l2 ∈ ls, l2.source = s.id → sourceBasisOf tmpl fN l2 = [.str t] :=
      fun l2 h2 => hsrc l2 (List.mem_cons_of_mem l h2)
    have hbasis2 : ∀ l2 ∈ ls, t ∈ (sourceBasisOf tmpl fN l2).map tagName →
        sourceBasisOf tmpl fN l2 = [.str t] :=
      fun l2 h2 => hbasis l2 (List.mem_cons_of_mem l h2)
    cases hout : processLink tmpl fN st l with
    | mk st2 out =>
      rw [hout] at hq hcontrib
      cases out with
      | some sl =>
        have hrun : runLinks tmpl fN st (l :: ls) = sl :: runLinks tmpl fN st2 ls := by
          rw [runLinks, hout]
        rw [hrun, sumSourceFlows_cons]
        have hrest := ih st2 q hsrc2 hbasis2 hq hq0
        have hc : (if sl.source = s.id then sl.value else 0) ≤ p - q := hcontrib
        omega
      | none =>
        have hrun : runLinks tmpl fN st (l :: ls) = runLinks tmpl fN st2 ls := by
          rw [runLinks, hout]
        rw [hrun]
        have hrest := ih st2 q hsrc2 hbasis2 hq hq0
        omega

/-- C1 (amended): conservation holds for a reported-mode node whose basis is
a single plain (add-action) concept tag with a nonnegative current-period
value, read from the current period, provided every processed link that draws
on that tag draws on it as exactly that single-tag basis (links with source
the node, typed or not, included).  Without those provisos the bound fails —
a negative resolved value (see the counterexample) or a shared or
subtract-action basis lets the outgoing flows exceed the node's resolved
absolute value. -/
theorem C1_conservation_amended (cfr : CompanyFactsResponse) (periodId : String)
    (ovr : Option IncomeSankeyTemplate) (period : FactPeriod) (g : SankeyGraph)
    (s : IncomeSankeyNode) (t : String) (p : ℤ)
    (hfindp : cfr.periods.find? (fun pe => pe.id == periodId) = some period)
    (hok : getIncomeSankey cfr periodId ovr = .ok g)
    (hfind : (filteredNodesOf (mergeIncomeSankeyTemplates defaultIncomeSankeyTemplate ovr)
        (buildPool period.facts)
        ((getPriorPeriod cfr.periods periodId).map (fun pr : FactPeriod => buildPool pr.facts))).find?
        (fun n => n.id == s.id) = some s)
    (hmode : s.valueSource ≠ some .unlimited)
    (hsup : s.usePriorPeriod ≠ some true)
    (hstags : s.conceptTags = [.str t])
    (hsrc : ∀ l ∈ (mergeIncomeSankeyTemplates defaultIncomeSankeyTemplate ovr).links,
      l.source = s.id →
      sourceBasisOf (mergeIncomeSankeyTemplates defaultIncomeSankeyTemplate ovr)
        (filteredNodesOf (mergeIncomeSankeyTemplates defaultIncomeSankeyTemplate ovr)
          (buildPool period.facts)
          ((getPriorPeriod cfr.periods periodId).map (fun pr : FactPeriod => buildPool pr.facts))) l =
        [.str t])
    (hbasis : ∀ l ∈ (mergeIncomeSankeyTemplates defaultIncomeSankeyTemplate ovr).links,
      t ∈ (sourceBasisOf (mergeIncomeSankeyTemplates defaultIncomeSankeyTemplate ovr)
        (filteredNodesOf (mergeIncomeSankeyTemplates defaultIncomeSankeyTemplate ovr)
          (buildPool period.facts)
          ((getPriorPeriod cfr.periods periodId).map (fun pr : FactPeriod => buildPool pr.facts))) l).map
          tagName →
      sourceBasisOf (mergeIncomeSankeyTemplates defaultIncomeSankeyTemplate ovr)
        (filteredNodesOf (mergeIncomeSankeyTemplates defaultIncomeSankeyTemplate ovr)
          (buildPool period.facts)
          ((getPriorPeriod cfr.periods periodId).map (fun pr : FactPeriod => buildPool pr.facts))) l =
        [.str t])
    (hp : buildPool period.facts t = .num p) (hp0 : 0 ≤ p) :
    sumSourceFlows s.id g.links ≤
      |getNodeValue (mergeIncomeSankeyTemplates defaultIncomeSankeyTemplate ovr) (some s)
        none (buildPool period.facts)
        ((getPriorPeriod cfr.periods periodId).map (fun pr : FactPeriod => buildPool pr.facts))| := by
  have hval : getNodeValue (mergeIncomeSankeyTemplates defaultIncomeSankeyTemplate ovr)
      (some s) none (buildPool period.facts)
      ((getPriorPeriod cfr.periods periodId).map (fun pr : FactPeriod => buildPool pr.facts)) = p := by
    cases hpp : (getPriorPeriod cfr.periods periodId).map (fun pr : FactPeriod => buildPool pr.facts) with
    | none =>
      by_cases hz : p = 0 <;>
        simp [getNodeValue, getNodeValueCore, hstags, conceptReduce, conceptReduceStep,
          hp, jAdd, orZero, jTruthy, finNum, hz]
    | some q =>
      by_cases hz : p = 0 <;>
        simp [getNodeValue, getNodeValueCore, hstags, hsup, conceptReduce,
          conceptReduceStep, hp, jAdd, orZero, jTruthy, finNum, hz]
  rw [hval, abs_of_nonneg hp0]
  simp only [getIncomeSankey, hfindp] at hok
  rw [Except.ok.injEq] at hok
  subst hok
  refine runLinks_src_conservation
    (mergeIncomeSankeyTemplates defaultIncomeSankeyTemplate ovr) _ s t hfind hmode hsup
    _ _ p ?_ ?_ ?_ hp0
  · intro l hl
    exact hsrc l (List.mem_filter.mp hl).1
  · intro l hl
    exact hbasis l (List.mem_filter.mp hl).1
  · exact hp

/-- C1 witness: the amended conservation theorem instantiated on a
nonnegative single-tag reported node, whose two outgoing flows 4 and 6 sum to
its full resolved value 10. -/
theorem C1_conservation_witness :
    sumSourceFlows nodeW.id gW.links ≤
      |getNodeValue (mergeIncomeSankeyTemplates defaultIncomeSankeyTemplate (some ovrW))
        (some nodeW) none (buildPool periodW.facts)
        ((getPriorPeriod cfrW.periods "p").map (fun pr : FactPeriod => buildPool pr.facts))| :=
  C1_conservation_amended cfrW "p" (some ovrW) periodW gW nodeW "w:src" 10
    (by decide) (by rfl) (by decide) (by decide) (by decide) (by decide)
    (by decide) (by decide) (by decide) (by decide)

/-- C6 witness: the no-prior fallback instantiated on the C6 scenario. -/
theorem C6_no_prior_witness :
    (getIncomeSankey cfrC6 "p" (some ovrC6)).isOk = true ∧
    ∀ n : IncomeSankeyNode,
      getNodeValue (mergeIncomeSankeyTemplates defaultIncomeSankeyTemplate (some ovrC6))
          (some n) none (buildPool ({ id := "p", end_date := 0, facts := [⟨"c:n", .num 7⟩] } : FactPeriod).facts)
          ((getPriorPeriod cfrC6.periods "p").map (fun p => buildPool p.facts)) =
        conceptReduce n.conceptTags
          (buildPool ({ id := "p", end_date := 0, facts := [⟨"c:n", .num 7⟩] } : FactPeriod).facts) :=
  C6_no_prior_amended cfrC6 "p" (some ovrC6)
    { id := "p", end_date := 0, facts := [⟨"c:n", .num 7⟩] } (by decide) (by decide)

end Storcky
